import Mathlib

/-!
# Inventory references (OBSE `InventoryReference.cpp`)

A shallow embedding of `Src/Oblivion/obse/obse/InventoryReference.cpp`.

Conventions of the embedding:

* a pointer is an address, a natural number; a nullable pointer is an
  `Option Nat`, `none` being NULL;
* host memory is a `World`: three stores (object references, container-change
  entries, extend-data nodes) indexed by address; the stores are total, so
  reading through a stale pointer yields whatever the store holds there;
* the `next` chains of the two singly linked lists of a container-change
  structure are kept as finite lists of node addresses, in list order;
* a function whose C++ original can dereference a NULL pointer or fail an
  `ASSERT` returns an `Option`; `none` stands for that undefined behaviour;
* engine entry points whose code is outside this file are fields of `Engine`
  (calls on items and containers) and `ObjectHost` (creation and destruction
  of objects);
* the proxies themselves live in a `Process`, next to the world and the
  registry `s_refmap`.
-/

namespace InventoryRef

/-- The part of a `TESForm` the file reads: its identity and its form type. -/
structure TESForm where
  refID : Nat
  typeID : Nat
deriving DecidableEq, Repr

/-- Type tag of an extra-data item (`BSExtraData::type`). Only the three tags
the file names are distinguished; every other tag is `kExtraData_Other`. -/
inductive ExtraDataType where
  | kExtraData_Count
  | kExtraData_Worn
  | kExtraData_WornLeft
  | kExtraData_Other (code : Nat)
deriving DecidableEq, Repr

/-- One item of an extra-data list. `value` is the payload; for an
`ExtraCount` it is `ExtraCount::count`. -/
structure BSExtraData where
  type : ExtraDataType
  value : Int
deriving DecidableEq, Repr

/-- Modelled from the spec: `BaseExtraList` is declared in a header that is not
part of the sources. It is the "host-owned per-item attribute list (count, worn
state, etc.)": the chain that starts at `m_data`. The presence bitfield records
which types occur in the chain, so the embedding keeps the chain and derives the
bitfield from it (`HasType`). -/
structure BaseExtraList where
  m_data : List BSExtraData
deriving DecidableEq, Repr

/-- `ExtraDataList` extends `BaseExtraList` without adding state. -/
abbrev ExtraDataList := BaseExtraList

/-- Node of an entry's extend-data list; its `next` pointer is the order of the
address list in `EntryData.extendData`. -/
structure EntryExtendData where
  data : Option ExtraDataList
deriving DecidableEq, Repr

/-- `ExtraContainerChanges::EntryData`: the extend-data chain (addresses, head
first) and the base form of the stack. -/
structure EntryData where
  extendData : List Nat
  type : Option TESForm
deriving DecidableEq, Repr

/-- `ExtraContainerChanges::Entry`; its `next` pointer is the order of the
address list in `ChangesData.objList`. -/
structure Entry where
  data : Option EntryData
deriving DecidableEq, Repr

/-- `ExtraContainerChanges::Data`: the entry chain (addresses, head first). -/
structure ChangesData where
  objList : List Nat
deriving DecidableEq, Repr

/-- `ExtraContainerChanges`: `data` may be NULL. -/
structure ExtraContainerChanges where
  data : Option ChangesData
deriving DecidableEq, Repr

/-- The part of a `TESObjectREFR` the file touches. `xChanges` is what
`baseExtraList.GetByType(kExtraData_ContainerChanges)` returns (NULL when the
object has no container-change extra); `isActor` is whether
`OBLIVION_CAST(ref, TESObjectREFR, Actor)` succeeds. -/
structure TESObjectREFR where
  refID : Nat
  baseForm : Option TESForm
  baseExtraList : BaseExtraList
  xChanges : Option ExtraContainerChanges
  isActor : Bool
deriving DecidableEq, Repr

/-- Host memory. `heapTop` is the next address the node allocator hands out. -/
structure World where
  refs : Nat → TESObjectREFR
  entries : Nat → Entry
  extendNodes : Nat → EntryExtendData
  heapTop : Nat

/-- `InventoryReference::Data`: base form, entry pointer, extend-data pointer. -/
structure Data where
  type : Option TESForm
  entry : Option Nat
  extendData : Option Nat
deriving DecidableEq, Repr

/-- The two deferred actions. `remove` carries `m_target` (NULL for a plain
removal, the destination for a move). -/
inductive DeferredAction where
  | DeferredEquipAction (data : Data)
  | DeferredRemoveAction (data : Data) (m_target : Option Nat)
deriving DecidableEq, Repr

/-- `DeferredAction::Data()`: the snapshot taken when the action was queued. -/
def DeferredAction.Data : DeferredAction → Data
  | .DeferredEquipAction d => d
  | .DeferredRemoveAction d _ => d

/-- The proxy object. `m_deferredActions` is the `std::queue`, front first. -/
structure InventoryReference where
  m_containerRef : Option Nat
  m_tempRef : Option Nat
  m_data : Data
  m_bDoValidation : Bool
  m_bRemoved : Bool
  m_deferredActions : List DeferredAction
deriving DecidableEq, Repr

/-- Store `r` at address `a` of the object store. -/
def World.setRef (w : World) (a : Nat) (r : TESObjectREFR) : World :=
  { w with refs := fun p => if p = a then r else w.refs p }

/-- Store `e` at address `a` of the entry store. -/
def World.setEntry (w : World) (a : Nat) (e : Entry) : World :=
  { w with entries := fun p => if p = a then e else w.entries p }

/-- Store `n` at address `a` of the extend-data node store. -/
def World.setExtend (w : World) (a : Nat) (n : EntryExtendData) : World :=
  { w with extendNodes := fun p => if p = a then n else w.extendNodes p }

/-! ## Extra-data list helpers (declared outside the file) -/

/-- Modelled from the spec: `ExtraDataList::Create()`, not in the sources;
"a freshly created list" holds no item. -/
def ExtraDataList.Create : ExtraDataList := ⟨[]⟩

/-- Modelled from the spec: `ExtraCount::Create(count)`, not in the sources; the
"explicit count marker" of a stack. -/
def ExtraCount.Create (count : Int) : BSExtraData :=
  ⟨ExtraDataType.kExtraData_Count, count⟩

/-- Modelled from the spec: `BaseExtraList::GetByType`, not in the sources; the
first item of the list with the given type, NULL when there is none. -/
def BaseExtraList.GetByType (l : BaseExtraList) (t : ExtraDataType) : Option BSExtraData :=
  l.m_data.find? (fun x => decide (x.type = t))

/-- Modelled from the spec: `BaseExtraList::HasType`, the presence bit of a
type: set exactly when the list holds an item of that type. -/
def BaseExtraList.HasType (l : BaseExtraList) (t : ExtraDataType) : Bool :=
  l.m_data.any (fun x => decide (x.type = t))

/-- Modelled from the spec: `BaseExtraList::Add`, not in the sources; links the
item in at the head of the list. -/
def BaseExtraList.Add (l : BaseExtraList) (x : BSExtraData) : BaseExtraList :=
  ⟨x :: l.m_data⟩

/-- Modelled from the spec: `BaseExtraList::IsWorn`, not in the sources; the
"worn state" of an item: it carries a worn marker of either kind. -/
def BaseExtraList.IsWorn (l : BaseExtraList) : Bool :=
  l.HasType ExtraDataType.kExtraData_Worn || l.HasType ExtraDataType.kExtraData_WornLeft

/-! ## Validation -/

/-- Inner loop of `Validate` (line 126), entered with `cur` the head of the
list argument. `ed` is read once and never advanced; the loop tests and
advances `cur`. When `cur` runs off the end the inner loop exits with
`cur == NULL` and the outer loop's increment `cur = cur->next` dereferences
NULL: `none`. -/
def validateInner (ed target : Option Nat) : List Nat → Option Bool
  | [] => none
  | _ :: rest => if ed = target then some true else validateInner ed target rest

/-- Outer loop of `Validate` (line 124) over the entry chain. Inside the `if`,
`cur == m_data.entry`, so `cur->data == m_data.entry->data` and the comparison
of the two `type` fields read the same object twice and hold. -/
def validateOuter (w : World) (m_data : Data) : List Nat → Option Bool
  | [] => some false
  | cur :: rest =>
    if some cur = m_data.entry then
      match (w.entries cur).data with
      | some d => validateInner d.extendData.head? m_data.extendData (cur :: rest)
      | none => validateOuter w m_data rest
    else validateOuter w m_data rest

/-- `InventoryReference::Validate` (lines 112-136). -/
def Validate (w : World) (self : InventoryReference) : Option Bool :=
  if !self.m_bDoValidation then some true
  else
    match self.m_containerRef with
    | none => none
    | some c =>
      match (w.refs c).xChanges with
      | some xChanges =>
        match xChanges.data with
        | some d => validateOuter w self.m_data d.objList
        | none => some false
      | none => some false

/-! ## Engine entry points -/

/-- Functions and constants of the host and of the other files of the plugin
that the file calls and does not define. Each takes the world before the call
and gives the world after it; arguments the file always passes as the same
literal are left out. A call may change anything in host memory; it does not
call back into the proxy object, whose fields only this file writes.

* `EntryRemove w entry toRemove bFree`: `entry->Remove(toRemove, bFree)`, with
  its `bool` result;
* `Add w dest form list`: `xChanges->Add(form, list)` on the container changes of
  the object at `dest`, with whether the pointer it returns is non-NULL;
* `UnequipItem w actor type count list`, `EquipItem w actor type count list`:
  the two `Actor` methods;
* `RemoveItem w container type list count target`: `TESObjectREFR::RemoveItem`;
* `kFormType_Ammo`: the form type of ammunition. -/
structure Engine where
  EntryRemove : World → Nat → Option Nat → Bool → World × Bool
  Add : World → Nat → Option TESForm → ExtraDataList → World × Bool
  UnequipItem : World → Nat → Option TESForm → Nat → Option ExtraDataList → World
  EquipItem : World → Nat → Option TESForm → Nat → Option ExtraDataList → World
  RemoveItem : World → Nat → Option TESForm → Option ExtraDataList → Int → Option Nat → World
  kFormType_Ammo : Nat

/-- Modelled from the spec: `ExtraContainerChanges::GetForRef(dest)`, not in the
sources; the container-change list of the destination, NULL when it has none.
A NULL `dest` is dereferenced: `none`. The list is named by the address of its
owner. -/
def GetForRef (w : World) (dest : Option Nat) : Option (Option Nat) :=
  match dest with
  | none => none
  | some d => some (if (w.refs d).xChanges.isSome then some d else none)

/-- Modelled from the spec: `BaseExtraList::Copy(src)`, not in the sources;
"duplicates that data onto a freshly created list": the receiver gets a
duplicate of every item of `src`. -/
def BaseExtraList.Copy (self src : BaseExtraList) : BaseExtraList :=
  ⟨src.m_data ++ self.m_data⟩

/-- Modelled from the spec: `BaseExtraList::RemoveAll`, not in the sources;
"clears the proxy's working copy". -/
def BaseExtraList.RemoveAll (_self : BaseExtraList) : BaseExtraList := ⟨[]⟩

/-- Modelled from the spec: `BaseExtraList::RemoveByType(type)`, not in the
sources; strips the marker of that type, leaving its presence bit clear, and
tells whether the list held one. -/
def BaseExtraList.RemoveByType (l : BaseExtraList) (t : ExtraDataType) : BaseExtraList × Bool :=
  (⟨l.m_data.filter (fun x => !decide (x.type = t))⟩, l.HasType t)

/-! ## The proxy's operations -/

/-- `WriteToExtraDataList(from, to)` (lines 5-19), with `src` for `from` and
`dst` for `to`. The result is the new content of `*to` (`none` inside when `to`
is NULL); the outer `none` is the failed `ASSERT(to || from)`. Copying `m_data`
and the presence bitfield copies the list; clearing both empties it. -/
def WriteToExtraDataList (src dst : Option BaseExtraList) : Option (Option BaseExtraList) :=
  if dst.isNone && src.isNone then none
  else
    match src with
    | some f =>
      match dst with
      | some _ => some (some f)
      | none => some none
    | none =>
      match dst with
      | some _ => some (some ⟨[]⟩)
      | none => some none

/-- `GetContainer()` (header): the owning container. -/
def GetContainer (self : InventoryReference) : Option Nat := self.m_containerRef

/-- `SetRemoved()` (header): raises the removed flag. -/
def SetRemoved (self : InventoryReference) : InventoryReference :=
  { self with m_bRemoved := true }

/-- The expression `data.extendData ? data.extendData->data : NULL`. -/
def extendList (w : World) (data : Data) : Option ExtraDataList :=
  match data.extendData with
  | some ed => (w.extendNodes ed).data
  | none => none

/-- The test `data.extendData && data.extendData->data &&
data.extendData->data->IsWorn()` (lines 163, 177, 251). -/
def dataIsWorn (w : World) (data : Data) : Bool :=
  match data.extendData with
  | some ed =>
    match (w.extendNodes ed).data with
    | some l => l.IsWorn
    | none => false
  | none => false

/-- `InventoryReference::SetData` (lines 57-67). -/
def SetData (w : World) (self : InventoryReference) (data : Data) :
    Option (Bool × World × InventoryReference) :=
  match self.m_tempRef with
  | none => none
  | some t =>
    let self1 := { self with m_bRemoved := false }
    let w1 := w.setRef t { w.refs t with baseForm := data.type }
    let self2 := { self1 with m_data := data }
    let list := extendList w1 data
    match WriteToExtraDataList list (some (w1.refs t).baseExtraList) with
    | some (some l) => some (true, w1.setRef t { w1.refs t with baseExtraList := l }, self2)
    | _ => none

/-- The count a stack carries: the `ExtraCount` of the list of the extend-data
node, 1 when the node pointer or its list is NULL or the list has no
`ExtraCount` (lines 96-102). -/
def stackCount (w : World) (extendData : Option Nat) : Int :=
  match extendData with
  | some ed =>
    match (w.extendNodes ed).data with
    | some l =>
      match l.GetByType ExtraDataType.kExtraData_Count with
      | some xCount => xCount.value
      | none => 1
    | none => 1
  | none => 1

/-- `InventoryReference::GetCount` (lines 92-110); the debug print is left out. -/
def GetCount (w : World) (self : InventoryReference) : Option Int :=
  match Validate w self with
  | none => none
  | some true => some (stackCount w self.m_data.extendData)
  | some false => some 0

/-- `InventoryReference::WriteRefDataToContainer` (lines 69-90). -/
def WriteRefDataToContainer (w : World) (self : InventoryReference) :
    Option (Bool × World × InventoryReference) :=
  match self.m_tempRef with
  | none => some (false, w, self)
  | some t =>
    match Validate w self with
    | none => none
    | some false => some (false, w, self)
    | some true =>
      if self.m_bRemoved then some (true, w, self)
      else
        match self.m_data.extendData with
        | none => none
        | some data =>
          let w1 :=
            if (w.extendNodes data).data.isNone ∧ (w.refs t).baseExtraList.m_data ≠ [] then
              w.setExtend data ⟨some ExtraDataList.Create⟩
            else w
          match (w1.extendNodes data).data with
          | some l =>
            match WriteToExtraDataList (some (w1.refs t).baseExtraList) (some l) with
            | some r => some (true, w1.setExtend data ⟨r⟩, self)
            | none => none
          | none => some (true, w1, self)

/-- `InventoryReference::QueueAction` (lines 225-228): push at the back. -/
def QueueAction (self : InventoryReference) (action : DeferredAction) : InventoryReference :=
  { self with m_deferredActions := self.m_deferredActions ++ [action] }

/-- `InventoryReference::RemoveFromContainer` (lines 160-171). -/
def RemoveFromContainer (eng : Engine) (w : World) (self : InventoryReference) :
    Option (Bool × World × InventoryReference) :=
  match Validate w self with
  | none => none
  | some v =>
    if v ∧ self.m_tempRef.isSome ∧ self.m_containerRef.isSome then
      if dataIsWorn w self.m_data then
        some (true, w, QueueAction self (.DeferredRemoveAction self.m_data none))
      else
        let self1 := SetRemoved self
        match self1.m_data.entry with
        | none => none
        | some entry =>
          let r := eng.EntryRemove w entry self1.m_data.extendData true
          some (r.2, r.1, self1)
    else some (false, w, self)

/-- `InventoryReference::MoveToContainer` (lines 173-190). -/
def MoveToContainer (eng : Engine) (w : World) (self : InventoryReference) (dest : Option Nat) :
    Option (Bool × World × InventoryReference) :=
  match GetForRef w dest with
  | none => none
  | some none => some (false, w, self)
  | some (some xChanges) =>
    match Validate w self with
    | none => none
    | some v =>
      match self.m_tempRef with
      | some t =>
        if v ∧ self.m_containerRef.isSome then
          if dataIsWorn w self.m_data then
            some (true, w, QueueAction self (.DeferredRemoveAction self.m_data dest))
          else
            match self.m_data.entry with
            | none => none
            | some entry =>
              let r := eng.EntryRemove w entry self.m_data.extendData false
              if r.2 then
                let self1 := SetRemoved self
                let w1 := r.1
                let newDataList := ExtraDataList.Create.Copy (w1.refs t).baseExtraList
                let w2 := w1.setRef t
                  { w1.refs t with baseExtraList := (w1.refs t).baseExtraList.RemoveAll }
                let a := eng.Add w2 xChanges (w2.refs t).baseForm newDataList
                some (a.2, a.1, self1)
              else some (false, r.1, self)
        else some (false, w, self)
      | none => some (false, w, self)

/-- `InventoryReference::CopyToContainer` (lines 192-208). -/
def CopyToContainer (eng : Engine) (w : World) (self : InventoryReference) (dest : Option Nat) :
    Option (Bool × World × InventoryReference) :=
  match GetForRef w dest with
  | none => none
  | some none => some (false, w, self)
  | some (some xChanges) =>
    match Validate w self with
    | none => none
    | some v =>
      match self.m_tempRef with
      | some t =>
        if v then
          let newDataList := ExtraDataList.Create.Copy (w.refs t).baseExtraList
          let r := newDataList.RemoveByType ExtraDataType.kExtraData_Worn
          let newDataList1 :=
            if !r.2 then (r.1.RemoveByType ExtraDataType.kExtraData_WornLeft).1 else r.1
          let a := eng.Add w xChanges (w.refs t).baseForm newDataList1
          some (a.2, a.1, self)
        else some (false, w, self)
      | none => some (false, w, self)

/-- `InventoryReference::SetEquipped` (lines 210-223). -/
def SetEquipped (w : World) (self : InventoryReference) (bEquipped : Bool) :
    Bool × InventoryReference :=
  match extendList w self.m_data with
  | some l =>
    if l.IsWorn != bEquipped then
      (true, QueueAction self (.DeferredEquipAction self.m_data))
    else (false, self)
  | none =>
    if bEquipped then (true, QueueAction self (.DeferredEquipAction self.m_data))
    else (false, self)

/-! ## Deferred actions -/

/-- `InventoryReference::DeferredEquipAction::Execute` (lines 246-265), for an
action whose snapshot is `data`. The count handed to `EquipItem` is a `UInt16`:
the `SInt16` result of `GetCount()` is reduced modulo 65536. -/
def DeferredEquipAction.Execute (eng : Engine) (data : Data) (w : World)
    (iref : InventoryReference) : Option (Bool × World × InventoryReference) :=
  match GetContainer iref with
  | some actor =>
    if (w.refs actor).isActor then
      if dataIsWorn w data then
        some (true, eng.UnequipItem w actor data.type 1 (extendList w data), iref)
      else
        match data.type with
        | none => none
        | some form =>
          if form.typeID = eng.kFormType_Ammo then
            match GetCount w iref with
            | none => none
            | some c =>
              some (true,
                eng.EquipItem w actor data.type (c % 65536).toNat (extendList w data), iref)
          else some (true, eng.EquipItem w actor data.type 1 (extendList w data), iref)
    else some (false, w, iref)
  | none => some (false, w, iref)

/-- `InventoryReference::DeferredRemoveAction::Execute` (lines 267-278), for an
action whose snapshot is `data` and whose target is `m_target`. -/
def DeferredRemoveAction.Execute (eng : Engine) (data : Data) (m_target : Option Nat)
    (w : World) (iref : InventoryReference) : Option (Bool × World × InventoryReference) :=
  match GetContainer iref with
  | some containerRef =>
    match GetCount w iref with
    | none => none
    | some count =>
      let w1 := eng.RemoveItem w containerRef data.type (extendList w data) count m_target
      let iref1 := SetRemoved iref
      match SetData w1 iref1 ⟨none, none, none⟩ with
      | some r => some (true, r.2.1, r.2.2)
      | none => none
  | none => some (false, w, iref)

/-- Virtual dispatch of `DeferredAction::Execute`. -/
def DeferredAction.Execute (eng : Engine) (action : DeferredAction) (w : World)
    (iref : InventoryReference) : Option (Bool × World × InventoryReference) :=
  match action with
  | .DeferredEquipAction data => DeferredEquipAction.Execute eng data w iref
  | .DeferredRemoveAction data m_target => DeferredRemoveAction.Execute eng data m_target w iref

/-- One pass through the body of the loop of `DoDeferredActions` (lines
233-242) with `action` at the front: `SetData`, the guarded `Execute` (whose
result only feeds a debug print), then `pop`. -/
def runFront (eng : Engine) (w : World) (self : InventoryReference) (action : DeferredAction) :
    Option (World × InventoryReference) :=
  match SetData w self action.Data with
  | none => none
  | some r =>
    let w1 := r.2.1
    let self1 := r.2.2
    match Validate w1 self1 with
    | none => none
    | some v =>
      if v ∧ (GetContainer self1).isSome then
        match action.Execute eng w1 self1 with
        | none => none
        | some e => some (e.2.1, { e.2.2 with m_deferredActions := e.2.2.m_deferredActions.tail })
      else some (w1, { self1 with m_deferredActions := self1.m_deferredActions.tail })

/-- The `while (m_deferredActions.size())` loop of `DoDeferredActions`, run
for at most `n` iterations. -/
def drainQueue (eng : Engine) : Nat → World → InventoryReference →
    Option (World × InventoryReference)
  | 0, w, self => some (w, self)
  | n + 1, w, self =>
    match self.m_deferredActions with
    | [] => some (w, self)
    | action :: _ =>
      match runFront eng w self action with
      | none => none
      | some r => drainQueue eng n r.1 r.2

/-- `InventoryReference::DoDeferredActions` (lines 230-244). Every iteration
pops one action and nothing pushes, so the loop makes exactly as many
iterations as the queue is long at the start. -/
def DoDeferredActions (eng : Engine) (w : World) (self : InventoryReference) :
    Option (World × InventoryReference) :=
  drainQueue eng self.m_deferredActions.length w self

/-! ## Stack splitting -/

/-- Modelled from the spec: `EntryExtendData::Create(ExtraDataList::Create())`,
not in the sources; a new node, at a fresh address, that holds a freshly
created (empty) list and has no successor. -/
def World.createExtend (w : World) : Nat × World :=
  (w.heapTop,
    { w.setExtend w.heapTop ⟨some ExtraDataList.Create⟩ with heapTop := w.heapTop + 1 })

/-- Link `node` after the last node of the extend-data chain of `entry`: the
assignments `entry->data->extendData = curExtend` (line 290, empty chain) and
`curExtend->next = ...` (lines 296 and 307, where `curExtend` is the last node
of the chain). -/
def World.linkExtend (w : World) (entry : Nat) (node : Nat) : World :=
  match (w.entries entry).data with
  | some d => w.setEntry entry ⟨some { d with extendData := d.extendData ++ [node] }⟩
  | none => w

/-- The loop `while (totalCount > 32767)` (lines 301-310). The state is the
world, `totalCount`, `curExtend` and `dataOut`. -/
def splitLoop (entry : Nat) (w : World) (totalCount : Int) (curExtend : Nat)
    (dataOut : List Data) : Option (World × Int × Nat × List Data) :=
  if _h : totalCount > 32767 then
    match (w.extendNodes curExtend).data with
    | none => none
    | some l =>
      let w1 := w.setExtend curExtend ⟨some (l.Add (ExtraCount.Create 32767))⟩
      match (w1.entries entry).data with
      | none => none
      | some d =>
        let dataOut1 := dataOut ++ [⟨d.type, some entry, some curExtend⟩]
        let totalCount1 := totalCount - 32767
        if totalCount1 > 0 then
          let c := w1.createExtend
          splitLoop entry (c.2.linkExtend entry c.1) totalCount1 c.1 dataOut1
        else splitLoop entry w1 totalCount1 curExtend dataOut1
  else some (w, totalCount, curExtend, dataOut)
termination_by totalCount.toNat
decreasing_by
  all_goals simp_wf
  all_goals omega

/-- `InventoryReference::Data::CreateForUnextendedEntry` (lines 280-318). The
result is the world and `dataOut` after the call. -/
def CreateForUnextendedEntry (w : World) (entry : Nat) (totalCount : Int)
    (dataOut : List Data) : Option (World × List Data) :=
  if totalCount < 1 then some (w, dataOut)
  else
    match (w.entries entry).data with
    | none => none
    | some _ =>
      let c := w.createExtend
      match splitLoop entry (c.2.linkExtend entry c.1) totalCount c.1 dataOut with
      | none => none
      | some (w1, totalCount1, curExtend, dataOut1) =>
        if totalCount1 > 0 then
          let marked :=
            if totalCount1 > 1 then
              match (w1.extendNodes curExtend).data with
              | none => none
              | some l =>
                some (w1.setExtend curExtend ⟨some (l.Add (ExtraCount.Create totalCount1))⟩)
            else some w1
          match marked with
          | none => none
          | some w2 =>
            match (w2.entries entry).data with
            | none => none
            | some d => some (w2, dataOut1 ++ [⟨d.type, some entry, some curExtend⟩])
        else some (w1, dataOut1)

/-- What the specification says happens to one drained action: its snapshot
is loaded into the proxy, and its `Execute` runs exactly when the proxy then
validates and has a container. The queue is not looked at. -/
def applyAction (eng : Engine) (s : World × InventoryReference) (action : DeferredAction) :
    Option (World × InventoryReference) :=
  match SetData s.1 s.2 action.Data with
  | none => none
  | some loaded =>
    match Validate loaded.2.1 loaded.2.2 with
    | none => none
    | some v =>
      if v ∧ (GetContainer loaded.2.2).isSome then
        match action.Execute eng loaded.2.1 loaded.2.2 with
        | none => none
        | some e => some (e.2.1, e.2.2)
      else some (loaded.2.1, loaded.2.2)

/-- The proxy with its queue replaced. -/
def setQueue (q : List DeferredAction) (self : InventoryReference) : InventoryReference :=
  { self with m_deferredActions := q }

/-! ## Sample states -/

/-- An object with no form, no extra data and no container changes. -/
def sampleRef : TESObjectREFR := ⟨0, none, ⟨[]⟩, none, false⟩

/-- A base form. -/
def sampleForm : TESForm := ⟨100, 0⟩

/-- A world with one container (address 1) whose change list holds one entry
(address 10) with two extend-data nodes (addresses 20 and 21, in this order,
neither with a list), a placeholder object (address 2) and a second container
(address 3) with an empty change list. -/
def sampleWorld : World where
  refs := fun p =>
    if p = 1 then { sampleRef with xChanges := some ⟨some ⟨[10]⟩⟩ }
    else if p = 3 then { sampleRef with xChanges := some ⟨some ⟨[]⟩⟩ }
    else sampleRef
  entries := fun p => if p = 10 then ⟨some ⟨[20, 21], some sampleForm⟩⟩ else ⟨none⟩
  extendNodes := fun _ => ⟨none⟩
  heapTop := 22

/-- A validating proxy on the first extend-data node of the sample entry. -/
def sampleProxy : InventoryReference :=
  ⟨some 1, some 2, ⟨some sampleForm, some 10, some 20⟩, true, false, []⟩

/-- A validating proxy on the second extend-data node of the sample entry. -/
def sampleProxySecond : InventoryReference :=
  { sampleProxy with m_data := ⟨some sampleForm, some 10, some 21⟩ }

/-- A proxy whose snapshotted entry (address 11) is not in the change list of
its container: it fails validation. -/
def sampleProxyStale : InventoryReference :=
  { sampleProxy with m_data := ⟨some sampleForm, some 11, some 20⟩ }

/-- The sample world with the first extend-data node of the sample entry
carrying a list that holds a worn marker. -/
def sampleWorldWorn : World :=
  sampleWorld.setExtend 20 ⟨some ⟨[⟨ExtraDataType.kExtraData_Worn, 0⟩]⟩⟩

/-- The sample world with the placeholder carrying both worn markers. -/
def sampleWorldBoth : World :=
  sampleWorld.setRef 2 { sampleRef with
    baseForm := some sampleForm
    baseExtraList :=
      ⟨[⟨ExtraDataType.kExtraData_Worn, 0⟩, ⟨ExtraDataType.kExtraData_WornLeft, 0⟩]⟩ }

/-- A simple host. `EntryRemove` unlinks the node from the entry's chain and
tells whether it was there; `Add` appends to the destination's change list a new
entry for the form whose single extend-data node holds the list; the actor
methods and `RemoveItem` leave the world alone. -/
def sampleEngine : Engine where
  EntryRemove := fun w entry toRemove _ =>
    match (w.entries entry).data, toRemove with
    | some d, some node =>
      (w.setEntry entry ⟨some { d with extendData := d.extendData.filter (fun a => a != node) }⟩,
        decide (node ∈ d.extendData))
    | _, _ => (w, false)
  Add := fun w dest form list =>
    match (w.refs dest).xChanges with
    | some ⟨some c⟩ =>
      ({ ((w.setExtend w.heapTop ⟨some list⟩).setEntry w.heapTop
            ⟨some ⟨[w.heapTop], form⟩⟩).setRef dest
            { w.refs dest with xChanges := some ⟨some ⟨c.objList ++ [w.heapTop]⟩⟩ } with
          heapTop := w.heapTop + 1 }, true)
    | _ => (w, false)
  UnequipItem := fun w _ _ _ _ => w
  EquipItem := fun w _ _ _ _ => w
  RemoveItem := fun w _ _ _ _ _ => w
  kFormType_Ammo := 34

/-- The source side of a proxy is the same in `w2` as in `w`: the placeholder
object and the owning container object are the same, and every entry of the
container's change list, and every extend-data node of such an entry, holds the
same content. -/
def sourceUnchanged (w w2 : World) (self : InventoryReference) : Prop :=
  (∀ t, self.m_tempRef = some t → w2.refs t = w.refs t) ∧
  (∀ c, self.m_containerRef = some c → w2.refs c = w.refs c ∧
    ∀ cd, (w.refs c).xChanges = some ⟨some cd⟩ → ∀ e ∈ cd.objList,
      w2.entries e = w.entries e ∧
      ∀ d, (w.entries e).data = some d → ∀ n ∈ d.extendData,
        w2.extendNodes n = w.extendNodes n)

/-- An ammunition form for the sample host (`kFormType_Ammo` is 34 there). -/
def sampleAmmo : TESForm := ⟨101, 34⟩

/-- The sample world with the first container an actor and the first
extend-data node of the sample entry carrying a stack count of 50. -/
def sampleWorldActor : World :=
  (sampleWorld.setRef 1 { sampleWorld.refs 1 with isActor := true }).setExtend 20
    ⟨some ⟨[ExtraCount.Create 50]⟩⟩

/-- A validating proxy on the sample entry whose item is ammunition. -/
def sampleProxyAmmo : InventoryReference :=
  { sampleProxy with m_data := ⟨some sampleAmmo, some 10, some 20⟩ }

/-- The sample proxy, already marked removed, with one queued removal of its
own data. -/
def sampleProxyQueued : InventoryReference :=
  { sampleProxy with
    m_bRemoved := true
    m_deferredActions := [DeferredAction.DeferredRemoveAction sampleProxy.m_data none] }

/-! ## Lifetime and the registry -/

/-- Host entry points for the lifetime of objects, outside the file:

* `Create w`: `TESObjectREFR::Create(false)`, the address of the new object and
  the world that holds it;
* `Destroy w ref`: `ref->Destroy(false)`;
* `Cleanup w container`: `xChanges->Cleanup()` on the container changes of the
  object at `container`. -/
structure ObjectHost where
  Create : World → Nat × World
  Destroy : World → Nat → World
  Cleanup : World → Nat → World

/-- `std::map::operator[]` followed by assignment, on the map kept as the list
of its (key, value) pairs in key order: the value of an existing key is
replaced, a new key is put in its place in the order. -/
def mapInsert (k v : Nat) : List (Nat × Nat) → List (Nat × Nat)
  | [] => [(k, v)]
  | (k0, v0) :: rest =>
    if k < k0 then (k, v) :: (k0, v0) :: rest
    else if k = k0 then (k, v) :: rest
    else (k0, v0) :: mapInsert k v rest

/-- `std::map::erase(key)`. -/
def mapErase (k : Nat) (m : List (Nat × Nat)) : List (Nat × Nat) :=
  m.filter (fun e => !decide (e.1 = k))

/-- `std::map::find(key)`: the value of the key, `none` for `end()`. -/
def mapFind (k : Nat) : List (Nat × Nat) → Option Nat
  | [] => none
  | (k0, v0) :: rest => if k = k0 then some v0 else mapFind k rest

/-- The state of the component: host memory, the proxy objects by address
(`none` where no proxy is alive) and the registry `s_refmap`, in key order. -/
structure Process where
  world : World
  heap : Nat → Option InventoryReference
  s_refmap : List (Nat × Nat)

/-- `InventoryReference::Release` (lines 51-55). -/
def Release (eng : Engine) (w : World) (self : InventoryReference) :
    Option (World × InventoryReference) :=
  match DoDeferredActions eng w self with
  | none => none
  | some r =>
    match SetData r.1 r.2 ⟨none, none, none⟩ with
    | none => none
    | some r2 => some (r2.2.1, r2.2.2)

/-- Lines 37-40 of the destructor: with a placeholder, its handle is erased
from the registry and the placeholder destroyed. -/
def releaseHandle (host : ObjectHost) (w : World) (s_refmap : List (Nat × Nat))
    (self : InventoryReference) : World × List (Nat × Nat) :=
  match self.m_tempRef with
  | some t => (host.Destroy w t, mapErase (w.refs t).refID s_refmap)
  | none => (w, s_refmap)

/-- Lines 43-48 of the destructor: the change list of the container, when
there is one, is cleaned up. -/
def cleanupContainer (host : ObjectHost) (w : World) (self : InventoryReference) : World :=
  match self.m_containerRef with
  | some c => if (w.refs c).xChanges.isSome then host.Cleanup w c else w
  | none => w

/-- `InventoryReference::~InventoryReference` (lines 30-49) on the object
`self`: the world, the registry and the fields of the object when the body
ends. -/
def destruct (host : ObjectHost) (eng : Engine) (w : World) (s_refmap : List (Nat × Nat))
    (self : InventoryReference) : Option (World × List (Nat × Nat) × InventoryReference) :=
  match (if self.m_data.type.isSome then Release eng w self else some (w, self)) with
  | none => none
  | some r =>
    let h := releaseHandle host r.1 s_refmap r.2
    some (cleanupContainer host h.1 r.2, h.2, r.2)

/-- `delete refr`: the destructor runs on the object at `this`, then the object
is gone. Deleting what is not alive is undefined. -/
def deleteProxy (host : ObjectHost) (eng : Engine) (s : Process) (this : Nat) :
    Option Process :=
  match s.heap this with
  | none => none
  | some self =>
    match destruct host eng s.world s.s_refmap self with
    | none => none
    | some r => some ⟨r.1, fun p => if p = this then none else s.heap p, r.2.1⟩

/-- `InventoryReference::InventoryReference` (lines 23-28) for a new object at
address `this`. -/
def construct (host : ObjectHost) (s : Process) (this : Nat) (container : Option Nat)
    (data : Data) (bValidate : Bool) : Option Process :=
  let self0 : InventoryReference := ⟨container, none, ⟨none, none, none⟩, bValidate, false, []⟩
  let c := host.Create s.world
  let self1 := { self0 with m_tempRef := some c.1 }
  match SetData c.2 self1 data with
  | none => none
  | some r =>
    some ⟨r.2.1, fun p => if p = this then some r.2.2 else s.heap p,
      mapInsert (r.2.1.refs c.1).refID this s.s_refmap⟩

/-- `InventoryReference::GetForRefID` (lines 138-146): `some (some p)` for the
proxy at `p`, `some none` for NULL. -/
def GetForRefID (s : Process) (refID : Nat) : Option (Option Nat) :=
  match mapFind refID s.s_refmap with
  | some found =>
    match s.heap found with
    | none => none
    | some self =>
      match Validate s.world self with
      | none => none
      | some true => some (some found)
      | some false => some none
  | none => some none

/-- The loop of `Clean` (lines 151-157), run for at most `n` iterations;
`begin()` is the head of the list. -/
def cleanLoop (host : ObjectHost) (eng : Engine) : Nat → Process → Option Process
  | 0, s => some s
  | n + 1, s =>
    match s.s_refmap with
    | [] => some s
    | (refid, refr) :: _ =>
      match deleteProxy host eng { s with s_refmap := mapErase refid s.s_refmap } refr with
      | none => none
      | some s2 => cleanLoop host eng n s2

/-- `InventoryReference::Clean` (lines 148-158). Every iteration erases the
first key and nothing inserts, so the loop makes at most as many iterations as
the registry has entries at the start. -/
def Clean (host : ObjectHost) (eng : Engine) (s : Process) : Option Process :=
  cleanLoop host eng s.s_refmap.length s

/-- A simple object host: `Create` puts a fresh object, whose handle is its
address, at the top of the heap; `Destroy` resets the object; `Cleanup` leaves
the world alone. -/
def sampleHost : ObjectHost where
  Create := fun w =>
    (w.heapTop,
      { w.setRef w.heapTop { sampleRef with refID := w.heapTop } with heapTop := w.heapTop + 1 })
  Destroy := fun w t => w.setRef t sampleRef
  Cleanup := fun w _ => w

/-- A world whose container (address 1) holds one entry (address 10) with an
empty extend-data chain. -/
def sampleWorldUnextended : World :=
  sampleWorld.setEntry 10 ⟨some ⟨[], some sampleForm⟩⟩

/-- A proxy with validation enabled on the unextended sample entry: its
extend-data pointer is NULL, as is the head of the entry's chain. -/
def sampleProxyUnextended : InventoryReference :=
  { sampleProxy with m_data := ⟨some sampleForm, some 10, none⟩ }

/-- A proxy with validation disabled whose data is cleared, as `Release()`
leaves it. -/
def sampleProxyReleased : InventoryReference :=
  ⟨some 1, some 2, ⟨none, none, none⟩, false, false, []⟩

/-- A proxy whose data is cleared, as `Release()` leaves it, and that had an
equip queued afterwards. -/
def sampleProxyCleared : InventoryReference :=
  ⟨some 1, some 2, ⟨none, none, none⟩, true, false,
    [DeferredAction.DeferredEquipAction ⟨none, none, none⟩]⟩

/-- The sample proxy with validation disabled and one queued removal of its
own data. -/
def sampleProxyUnchecked : InventoryReference :=
  { sampleProxy with
    m_bDoValidation := false
    m_deferredActions := [DeferredAction.DeferredRemoveAction sampleProxy.m_data none] }

/-- In state `s` the proxy at `p` is alive and the handle of its placeholder is
`h`. -/
def LiveWithHandle (s : Process) (p h : Nat) : Prop :=
  ∃ self t, s.heap p = some self ∧ self.m_tempRef = some t ∧ (s.world.refs t).refID = h

/-- The registry is well formed: it maps a handle to a proxy exactly when that
proxy is alive with that handle, and it is in key order, as a `std::map` is. -/
def RegistryInv (s : Process) : Prop :=
  (∀ h p, mapFind h s.s_refmap = some p ↔ LiveWithHandle s p h) ∧
    s.s_refmap.Pairwise (fun a b => a.1 < b.1)

/-- The host keeps the handle of every object it does not create or destroy:
the calls a flush can make and `Cleanup` change no handle, `Destroy` and
`Create` none but that of the object destroyed or created. -/
def KeepsHandles (host : ObjectHost) (eng : Engine) : Prop :=
  (∀ w actor type count list a,
    ((eng.UnequipItem w actor type count list).refs a).refID = (w.refs a).refID) ∧
  (∀ w actor type count list a,
    ((eng.EquipItem w actor type count list).refs a).refID = (w.refs a).refID) ∧
  (∀ w container type list count target a,
    ((eng.RemoveItem w container type list count target).refs a).refID = (w.refs a).refID) ∧
  (∀ w t a, a ≠ t → ((host.Destroy w t).refs a).refID = (w.refs a).refID) ∧
  (∀ w c a, ((host.Cleanup w c).refs a).refID = (w.refs a).refID) ∧
  (∀ w a, a ≠ (host.Create w).1 → ((host.Create w).2.refs a).refID = (w.refs a).refID)

/-- The states the component reaches from an empty registry by constructing
proxies (each at an address where no proxy is alive, with the host handing out
a placeholder whose handle no live proxy uses), deleting proxies, calling
`Clean`, and any other activity that keeps the registry, the placeholder of
every live proxy and the handle of every object. -/
inductive Reachable (host : ObjectHost) (eng : Engine) : Process → Prop where
  | init (w : World) : Reachable host eng ⟨w, fun _ => none, []⟩
  | construct (s s2 : Process) (this : Nat) (container : Option Nat) (data : Data)
      (bValidate : Bool) :
      Reachable host eng s → s.heap this = none →
      (∀ p h, LiveWithHandle ⟨(host.Create s.world).2, s.heap, s.s_refmap⟩ p h →
        h ≠ ((host.Create s.world).2.refs (host.Create s.world).1).refID) →
      construct host s this container data bValidate = some s2 → Reachable host eng s2
  | destroy (s s2 : Process) (this : Nat) :
      Reachable host eng s → deleteProxy host eng s this = some s2 → Reachable host eng s2
  | clean (s s2 : Process) :
      Reachable host eng s → Clean host eng s = some s2 → Reachable host eng s2
  | other (s s2 : Process) :
      Reachable host eng s → s2.s_refmap = s.s_refmap →
      (∀ p, (s2.heap p).map (fun x => x.m_tempRef) = (s.heap p).map (fun x => x.m_tempRef)) →
      (∀ a, (s2.world.refs a).refID = (s.world.refs a).refID) → Reachable host eng s2

/-- The state with the sample world, no proxy and an empty registry. -/
def sampleProcessEmpty : Process := ⟨sampleWorld, fun _ => none, []⟩

/-- The state after one proxy, with the data of the sample proxy, has been
constructed at address 50 on the sample container by the sample host. -/
def sampleProcess : Process :=
  (construct sampleHost sampleProcessEmpty 50 (some 1) sampleProxy.m_data true).getD
    sampleProcessEmpty

/-- The sample world as `SetData` leaves it after loading a stack of five into
the sample proxy: the first extend-data node of the sample entry carries a list
with a count of 5, and the placeholder (address 2) has the sample form and the
same extra data. -/
def sampleWorldStack : World :=
  (sampleWorld.setExtend 20 ⟨some ⟨[ExtraCount.Create 5]⟩⟩).setRef 2
    { sampleRef with
      baseForm := some sampleForm
      baseExtraList := ⟨[ExtraCount.Create 5]⟩ }

/-- A proxy with validation disabled on the sample entry whose extend-data
pointer (address 25) is not a node of the entry's chain. -/
def sampleProxyDetached : InventoryReference :=
  ⟨some 1, some 2, ⟨some sampleForm, some 10, some 25⟩, false, false, []⟩

/-! ## Validation: theorems -/

/-- Claim C1, evaluated on the code: the entry at address 10 is a node of the
live entry list of the container and the snapshotted extend-data node (address
21) is the second node of that entry's extend-data list, yet `Validate` does not
return true: the inner loop advances `cur` instead of `ed`, runs off the entry
list and the outer loop's increment dereferences NULL. -/
theorem Validate_second_extend_node_undefined :
    sampleProxySecond.m_bDoValidation = true ∧
    sampleProxySecond.m_containerRef = some 1 ∧
    (sampleWorld.refs 1).xChanges = some ⟨some ⟨[10]⟩⟩ ∧
    sampleProxySecond.m_data.entry = some 10 ∧
    (sampleWorld.entries 10).data = some ⟨[20, 21], some sampleForm⟩ ∧
    sampleProxySecond.m_data.extendData = some 21 ∧
    Validate sampleWorld sampleProxySecond = none ∧
    Validate sampleWorld sampleProxy = some true := by
  refine ⟨rfl, rfl, rfl, rfl, rfl, rfl, ?_, ?_⟩ <;> decide

theorem validateInner_eq (ed target : Option Nat) (l : List Nat) :
    validateInner ed target l = if l ≠ [] ∧ ed = target then some true else none := by
  induction l with
  | nil => simp [validateInner]
  | cons cur rest ih =>
    by_cases h : ed = target
    · simp [validateInner, h]
    · simp [validateInner, h, ih]

theorem validateOuter_true_iff (w : World) (m_data : Data) (l : List Nat) :
    validateOuter w m_data l = some true ↔
      ∃ e d, m_data.entry = some e ∧ e ∈ l ∧ (w.entries e).data = some d ∧
        d.extendData.head? = m_data.extendData := by
  induction l with
  | nil => simp [validateOuter]
  | cons cur rest ih =>
    by_cases hcur : some cur = m_data.entry
    · cases hd : (w.entries cur).data with
      | none =>
        simp only [validateOuter, hcur, if_true, hd, ih]
        constructor
        · rintro ⟨e, d, he, _, hde, _⟩
          rw [← hcur] at he
          cases he
          rw [hd] at hde
          cases hde
        · rintro ⟨e, d, he, _, hde, _⟩
          rw [← hcur] at he
          cases he
          rw [hd] at hde
          cases hde
      | some d =>
        simp only [validateOuter, hcur, if_true, hd, validateInner_eq]
        constructor
        · intro h
          by_cases hh : d.extendData.head? = m_data.extendData
          · exact ⟨cur, d, hcur.symm, List.mem_cons_self _ _, hd, hh⟩
          · simp [hh] at h
        · rintro ⟨e, d2, he, _, hde, hh⟩
          rw [← hcur] at he
          cases he
          rw [hd] at hde
          cases hde
          simp [hh]
    · simp only [validateOuter, hcur, if_false, ih]
      constructor
      · rintro ⟨e, d, he, hmem, hde, hh⟩
        exact ⟨e, d, he, List.mem_cons_of_mem _ hmem, hde, hh⟩
      · rintro ⟨e, d, he, hmem, hde, hh⟩
        rcases List.mem_cons.mp hmem with heq | hmem2
        · subst heq
          exact absurd he.symm hcur
        · exact ⟨e, d, he, hmem2, hde, hh⟩

/-- With validation enabled and a container, `Validate` returns true exactly
when the container has change data, the snapshotted entry is in its entry list
and has data, and the snapshotted extend-data pointer equals the HEAD of that
entry's extend-data chain (both NULL included). -/
theorem Validate_true_iff (w : World) (self : InventoryReference) (c : Nat)
    (hval : self.m_bDoValidation = true) (hc : self.m_containerRef = some c) :
    Validate w self = some true ↔
      ∃ cd e d, (w.refs c).xChanges = some ⟨some cd⟩ ∧ self.m_data.entry = some e ∧
        e ∈ cd.objList ∧ (w.entries e).data = some d ∧
        d.extendData.head? = self.m_data.extendData := by
  unfold Validate
  simp only [hval, Bool.not_true, Bool.false_eq_true, if_false, hc]
  cases hx : (w.refs c).xChanges with
  | none => simp
  | some x =>
    obtain ⟨xd⟩ := x
    cases xd with
    | none => simp
    | some cd =>
      simp only [validateOuter_true_iff]
      constructor
      · rintro ⟨e, d, h1, h2, h3, h4⟩
        exact ⟨cd, e, d, rfl, h1, h2, h3, h4⟩
      · rintro ⟨cd2, e, d, h0, h1, h2, h3, h4⟩
        cases h0
        exact ⟨e, d, h1, h2, h3, h4⟩

theorem Validate_true_entry (w : World) (self : InventoryReference)
    (hval : self.m_bDoValidation = true) (hv : Validate w self = some true) :
    ∃ e, self.m_data.entry = some e := by
  cases hc : self.m_containerRef with
  | none => simp [Validate, hval, hc] at hv
  | some c =>
    obtain ⟨_, e, _, _, he, _⟩ := (Validate_true_iff w self c hval hc).mp hv
    exact ⟨e, he⟩

/-! ## Stack splitting: theorems -/

theorem splitLoop_run (entry : Nat) (n : Nat) :
    ∀ (w : World) (tc : Int) (cur : Nat) (out : List Data) (d : EntryData),
      32767 * (n : Int) < tc → tc ≤ 32767 * ((n : Int) + 1) →
      (w.entries entry).data = some d →
      (w.extendNodes cur).data = some ⟨[]⟩ →
      w.heapTop = cur + 1 →
      ∃ w2 : World,
        splitLoop entry w tc cur out =
          some (w2, tc - 32767 * (n : Int), cur + n,
            out ++ (List.range n).map (fun i => (⟨d.type, some entry, some (cur + i)⟩ : Data))) ∧
        w2.heapTop = cur + n + 1 ∧
        (w2.entries entry).data =
          some ⟨d.extendData ++ (List.range n).map (fun i => cur + 1 + i), d.type⟩ ∧
        (w2.extendNodes (cur + n)).data = some ⟨[]⟩ ∧
        (∀ i, i < n → (w2.extendNodes (cur + i)).data = some ⟨[ExtraCount.Create 32767]⟩) ∧
        (∀ a, a < cur → w2.extendNodes a = w.extendNodes a) ∧
        w2.refs = w.refs ∧
        (∀ e, e ≠ entry → w2.entries e = w.entries e) := by
  induction n with
  | zero =>
    intro w tc cur out d hlo hhi hd hcur htop
    refine ⟨w, ?_, ?_, ?_, ?_, ?_, ?_, rfl, ?_⟩
    · rw [splitLoop]
      have : ¬ tc > 32767 := by omega
      simp [this]
    · simpa using htop
    · simp [hd]
    · simpa using hcur
    · intro i hi; omega
    · intro a _; rfl
    · intro e _; rfl
  | succ n ih =>
    intro w tc cur out d hlo hhi hd hcur htop
    have hgt : tc > 32767 := by push_cast at hlo; omega
    have hpos : tc - 32767 > 0 := by omega
    -- the state after one pass through the loop body
    have hc1 : (w.setExtend cur ⟨some ((⟨[]⟩ : BaseExtraList).Add (ExtraCount.Create 32767))⟩).createExtend.1
        = cur + 1 := by simp [World.createExtend, World.setExtend, htop]
    obtain ⟨w2, hrun, htop2, hent2, hcur2, hmark2, hframe2, hrefs2, hother2⟩ :=
      ih (((w.setExtend cur ⟨some ((⟨[]⟩ : BaseExtraList).Add (ExtraCount.Create 32767))⟩).createExtend.2).linkExtend
            entry (cur + 1))
        (tc - 32767) (cur + 1) (out ++ [⟨d.type, some entry, some cur⟩])
        ⟨d.extendData ++ [cur + 1], d.type⟩
        (by push_cast at hlo; omega) (by push_cast at hhi; omega)
        (by simp [World.linkExtend, World.createExtend, World.setExtend, World.setEntry, hd, htop])
        (by simp [World.linkExtend, World.createExtend, World.setExtend, World.setEntry, hd, htop,
              ExtraDataList.Create])
        (by simp [World.linkExtend, World.createExtend, World.setExtend, World.setEntry, hd, htop])
    refine ⟨w2, ?_, ?_, ?_, ?_, ?_, ?_, ?_, ?_⟩
    · rw [splitLoop]
      simp only [hgt, hcur, hpos, dite_true, if_true]
      have hd1 : ((w.setExtend cur ⟨some ((⟨[]⟩ : BaseExtraList).Add (ExtraCount.Create 32767))⟩).entries entry).data
          = some d := by simpa [World.setExtend] using hd
      simp only [hd1, hc1]
      rw [hrun]
      simp only [Option.some.injEq, Prod.mk.injEq, true_and]
      refine ⟨by push_cast; ring, by omega, ?_⟩
      rw [List.range_succ_eq_map]
      simp [List.map_map, Function.comp_def, Nat.add_assoc, Nat.add_comm 1]
    · rw [htop2]; omega
    · rw [hent2]
      rw [List.range_succ_eq_map]
      simp [List.map_map, Function.comp_def, Nat.add_assoc, Nat.add_comm 1]
      intro a _
      omega
    · have : cur + (n + 1) = cur + 1 + n := by omega
      rw [this]; exact hcur2
    · intro i hi
      rcases Nat.eq_zero_or_pos i with h0 | hpos'
      · subst h0
        rw [hframe2 (cur + 0) (by omega)]
        simp [World.linkExtend, World.createExtend, World.setExtend, World.setEntry, hd, htop,
          BaseExtraList.Add]
      · have := hmark2 (i - 1) (by omega)
        have e : cur + 1 + (i - 1) = cur + i := by omega
        rw [e] at this; exact this
    · intro a ha
      rw [hframe2 a (by omega)]
      have h1 : a ≠ cur := by omega
      have h2 : a ≠ cur + 1 := by omega
      simp [World.linkExtend, World.createExtend, World.setExtend, World.setEntry, hd, htop, h1, h2]
    · rw [hrefs2]
      simp [World.linkExtend, World.createExtend, World.setExtend, World.setEntry, hd]
    · intro e he
      rw [hother2 e he]
      simp [World.linkExtend, World.createExtend, World.setExtend, World.setEntry, hd, he]

theorem CreateForUnextendedEntry_run (w : World) (entry : Nat) (tc : Int) (out : List Data)
    (d : EntryData) (n : Nat) (hlo : 32767 * (n : Int) < tc) (hhi : tc ≤ 32767 * ((n : Int) + 1))
    (hd : (w.entries entry).data = some d) :
    ∃ w2 : World,
      CreateForUnextendedEntry w entry tc out =
        some (w2, out ++ (List.range (n + 1)).map
          (fun i => (⟨d.type, some entry, some (w.heapTop + i)⟩ : Data))) ∧
      w2.heapTop = w.heapTop + n + 1 ∧
      (w2.entries entry).data =
        some ⟨d.extendData ++ (List.range (n + 1)).map (fun i => w.heapTop + i), d.type⟩ ∧
      (∀ i, i < n → (w2.extendNodes (w.heapTop + i)).data = some ⟨[ExtraCount.Create 32767]⟩) ∧
      (w2.extendNodes (w.heapTop + n)).data =
        some ⟨if tc - 32767 * (n : Int) > 1 then [ExtraCount.Create (tc - 32767 * (n : Int))]
          else []⟩ ∧
      (∀ a, a < w.heapTop → w2.extendNodes a = w.extendNodes a) ∧
      w2.refs = w.refs ∧
      (∀ e, e ≠ entry → w2.entries e = w.entries e) := by
  have hc1 : w.createExtend.1 = w.heapTop := rfl
  obtain ⟨w1, hrun, htop1, hent1, hcur1, hmark1, hframe1, hrefs1, hother1⟩ :=
    splitLoop_run entry n (w.createExtend.2.linkExtend entry w.heapTop) tc w.heapTop out
      ⟨d.extendData ++ [w.heapTop], d.type⟩ hlo hhi
      (by simp [World.linkExtend, World.createExtend, World.setExtend, World.setEntry, hd])
      (by simp [World.linkExtend, World.createExtend, World.setExtend, World.setEntry, hd,
            ExtraDataList.Create])
      (by simp [World.linkExtend, World.createExtend, World.setExtend, World.setEntry, hd])
  have hnot : ¬ tc < 1 := by have : (0 : Int) ≤ n := Int.natCast_nonneg n; omega
  have hrest : tc - 32767 * (n : Int) > 0 := by omega
  have hlist : (List.range (n + 1)).map (fun i => w.heapTop + i)
      = w.heapTop :: (List.range n).map (fun i => w.heapTop + 1 + i) := by
    rw [List.range_succ_eq_map]
    simp [List.map_map, Function.comp_def, Nat.add_assoc, Nat.add_comm 1]
  have hrecs : (List.range (n + 1)).map
        (fun i => (⟨d.type, some entry, some (w.heapTop + i)⟩ : Data))
      = (List.range n).map (fun i => (⟨d.type, some entry, some (w.heapTop + i)⟩ : Data))
        ++ [⟨d.type, some entry, some (w.heapTop + n)⟩] := by
    rw [List.range_succ]; simp
  by_cases hone : tc - 32767 * (n : Int) > 1
  · refine ⟨w1.setExtend (w.heapTop + n)
        ⟨some ((⟨[]⟩ : BaseExtraList).Add (ExtraCount.Create (tc - 32767 * (n : Int))))⟩,
      ?_, ?_, ?_, ?_, ?_, ?_, ?_, ?_⟩
    · unfold CreateForUnextendedEntry
      simp only [hnot, if_false, hd, hc1, hrun, hrest, if_true, hone, hcur1]
      simp [World.setExtend, hent1, hrecs]
    · simpa [World.setExtend] using htop1
    · simp [World.setExtend, hent1, hlist]
    · intro i hi
      have hne : w.heapTop + i ≠ w.heapTop + n := by omega
      simpa [World.setExtend, hne] using hmark1 i hi
    · simp [World.setExtend, hone, BaseExtraList.Add]
    · intro a ha
      have hne : a ≠ w.heapTop + n := by omega
      simp only [World.setExtend, hne, if_false]
      rw [hframe1 a ha]
      have hne2 : a ≠ w.heapTop := by omega
      simp [World.linkExtend, World.createExtend, World.setExtend, World.setEntry, hd, hne2]
    · simp [World.setExtend, hrefs1, World.linkExtend, World.createExtend, World.setEntry, hd]
    · intro e he
      simp only [World.setExtend]
      rw [hother1 e he]
      simp [World.linkExtend, World.createExtend, World.setExtend, World.setEntry, hd, he]
  · refine ⟨w1, ?_, ?_, ?_, ?_, ?_, ?_, ?_, ?_⟩
    · unfold CreateForUnextendedEntry
      simp only [hnot, if_false, hd, hc1, hrun, hrest, if_true, hone]
      simp [hent1, hrecs]
    · exact htop1
    · simp [hent1, hlist]
    · exact hmark1
    · simpa [hone] using hcur1
    · intro a ha
      rw [hframe1 a ha]
      have hne2 : a ≠ w.heapTop := by omega
      simp [World.linkExtend, World.createExtend, World.setExtend, World.setEntry, hd, hne2]
    · simp [hrefs1, World.linkExtend, World.createExtend, World.setExtend, World.setEntry, hd]
    · intro e he
      rw [hother1 e he]
      simp [World.linkExtend, World.createExtend, World.setExtend, World.setEntry, hd, he]

theorem stackCount_marked (w : World) (a : Nat) (v : Int)
    (h : (w.extendNodes a).data = some ⟨[ExtraCount.Create v]⟩) :
    stackCount w (some a) = v := by
  simp [stackCount, h, BaseExtraList.GetByType, ExtraCount.Create]

theorem stackCount_unmarked (w : World) (a : Nat)
    (h : (w.extendNodes a).data = some ⟨[]⟩) :
    stackCount w (some a) = 1 := by
  simp [stackCount, h, BaseExtraList.GetByType]

theorem split_bounds (tc : Int) (h : 1 ≤ tc) :
    32767 * ((((tc - 1) / 32767).toNat : Nat) : Int) < tc ∧
      tc ≤ 32767 * (((((tc - 1) / 32767).toNat : Nat) : Int) + 1) := by
  have h0 : 0 ≤ (tc - 1) / 32767 := Int.ediv_nonneg (by omega) (by norm_num)
  rw [Int.toNat_of_nonneg h0]
  omega

theorem ceil_of_bounds (tc : Int) (n : Nat) (hlo : 32767 * (n : Int) < tc)
    (hhi : tc ≤ 32767 * ((n : Int) + 1)) : ⌈(tc : ℚ) / 32767⌉ = (n : Int) + 1 := by
  rw [Int.ceil_eq_iff]
  have hpos : (0 : ℚ) < 32767 := by norm_num
  constructor
  · rw [lt_div_iff₀ hpos]
    have : ((32767 * (n : Int) : Int) : ℚ) < (tc : ℚ) := by exact_mod_cast hlo
    push_cast at this ⊢
    linarith
  · rw [div_le_iff₀ hpos]
    have : (tc : ℚ) ≤ ((32767 * ((n : Int) + 1) : Int) : ℚ) := by exact_mod_cast hhi
    push_cast at this ⊢
    linarith

theorem sum_full_then_rest (n : Nat) (g : Nat → Int) (c r : Int)
    (hfull : ∀ i, i < n → g i = c) (hrest : g n = r) :
    ((List.range (n + 1)).map g).sum = c * n + r := by
  rw [List.range_succ, List.map_append, List.sum_append]
  have : (List.range n).map g = List.replicate n c := by
    apply List.ext_getElem
    · simp
    · intro i h1 h2
      simp only [List.length_map, List.length_range] at h1
      simp [hfull i h1]
  rw [this]
  simp [hrest, mul_comm]

/-- Claim C2: for an entry that has data and a total count of at least 1,
`CreateForUnextendedEntry` appends exactly ceil(totalCount / 32767) records to
`dataOut`; each names the entry, the entry's base form and an extend-data node
created during the call (its address was handed out by the allocator during the
call), the nodes are pairwise distinct and are linked, in order, at the end of
the entry's chain; the count of each sub-stack (its `ExtraCount`, or 1 without
one) lies between 1 and 32767 and the counts add up to `totalCount`. -/
theorem CreateForUnextendedEntry_substacks (w : World) (entry : Nat) (totalCount : Int)
    (dataOut : List Data) (d : EntryData)
    (hcount : 1 ≤ totalCount) (hd : (w.entries entry).data = some d) :
    ∃ (w2 : World) (recs : List Data),
      CreateForUnextendedEntry w entry totalCount dataOut = some (w2, dataOut ++ recs) ∧
      (recs.length : Int) = ⌈(totalCount : ℚ) / 32767⌉ ∧
      (∀ r ∈ recs, r.type = d.type ∧ r.entry = some entry ∧
        ∃ a, r.extendData = some a ∧ w.heapTop ≤ a ∧ a < w2.heapTop) ∧
      (recs.map (fun r => r.extendData)).Nodup ∧
      (w2.entries entry).data =
        some ⟨d.extendData ++ recs.filterMap (fun r => r.extendData), d.type⟩ ∧
      (∀ r ∈ recs, 1 ≤ stackCount w2 r.extendData ∧ stackCount w2 r.extendData ≤ 32767) ∧
      (recs.map (fun r => stackCount w2 r.extendData)).sum = totalCount := by
  obtain ⟨hlo, hhi⟩ := split_bounds totalCount hcount
  generalize ((totalCount - 1) / 32767).toNat = n at hlo hhi
  obtain ⟨w2, hrun, htop, hent, hmark, hlast, -, -, -⟩ :=
    CreateForUnextendedEntry_run w entry totalCount dataOut d n hlo hhi hd
  have hcnt : ∀ i, i < n + 1 →
      stackCount w2 (some (w.heapTop + i)) = if i < n then 32767 else totalCount - 32767 * (n : Int) := by
    intro i hi
    by_cases hin : i < n
    · simp only [hin, if_true]
      exact stackCount_marked w2 _ _ (hmark i hin)
    · have hi' : i = n := by omega
      subst hi'
      simp only [lt_irrefl, if_false]
      by_cases hone : totalCount - 32767 * (i : Int) > 1
      · rw [if_pos hone] at hlast
        exact stackCount_marked w2 _ _ hlast
      · rw [if_neg hone] at hlast
        rw [stackCount_unmarked w2 _ hlast]
        omega
  refine ⟨w2, (List.range (n + 1)).map
      (fun i => (⟨d.type, some entry, some (w.heapTop + i)⟩ : Data)), hrun, ?_, ?_, ?_, ?_, ?_, ?_⟩
  · rw [ceil_of_bounds totalCount n hlo hhi]
    simp
  · intro r hr
    simp only [List.mem_map, List.mem_range] at hr
    obtain ⟨i, hi, rfl⟩ := hr
    exact ⟨rfl, rfl, w.heapTop + i, rfl, by omega, by omega⟩
  · rw [List.map_map]
    apply List.Nodup.map _ (List.nodup_range _)
    intro i j hij
    simpa using hij
  · rw [hent]
    simp only [List.filterMap_map, Function.comp_def]
    have h := List.filterMap_eq_map (fun i => w.heapTop + i)
    simp only [Function.comp_def] at h
    rw [h]
  · intro r hr
    simp only [List.mem_map, List.mem_range] at hr
    obtain ⟨i, hi, rfl⟩ := hr
    simp only [hcnt i hi]
    split_ifs <;> omega
  · rw [List.map_map]
    rw [sum_full_then_rest n _ 32767 (totalCount - 32767 * (n : Int))]
    · ring
    · intro i hi
      simp [Function.comp_def, hcnt i (by omega), hi]
    · simp [Function.comp_def, hcnt n (by omega)]

/-- Claim C2, at a concrete input: the sample entry (address 10) split for a
total of 32768 units. -/
theorem CreateForUnextendedEntry_substacks_sample :
    ∃ (w2 : World) (recs : List Data),
      CreateForUnextendedEntry sampleWorld 10 32768 [] = some (w2, [] ++ recs) ∧
      (recs.length : Int) = ⌈((32768 : Int) : ℚ) / 32767⌉ ∧
      (∀ r ∈ recs, r.type = (⟨[20, 21], some sampleForm⟩ : EntryData).type ∧ r.entry = some 10 ∧
        ∃ a, r.extendData = some a ∧ sampleWorld.heapTop ≤ a ∧ a < w2.heapTop) ∧
      (recs.map (fun r => r.extendData)).Nodup ∧
      (w2.entries 10).data =
        some ⟨(⟨[20, 21], some sampleForm⟩ : EntryData).extendData ++
          recs.filterMap (fun r => r.extendData), (⟨[20, 21], some sampleForm⟩ : EntryData).type⟩ ∧
      (∀ r ∈ recs, 1 ≤ stackCount w2 r.extendData ∧ stackCount w2 r.extendData ≤ 32767) ∧
      (recs.map (fun r => stackCount w2 r.extendData)).sum = 32768 :=
  CreateForUnextendedEntry_substacks sampleWorld 10 32768 [] ⟨[20, 21], some sampleForm⟩
    (by decide) rfl

/-- Claim C3: for an entry that has data and a total count of at least 1,
`CreateForUnextendedEntry` produces `(totalCount - 1) / 32767 + 1` sub-stacks,
and the sub-stack at position `i` (from 0), which holds
`min 32767 (totalCount - 32767 * i)` of the units, carries an `ExtraCount`
exactly when that size is greater than 1; the marker then holds the size, and
without a marker the list holds no `ExtraCount` at all, so the count read back
from the node (the marker, or 1) is the size in both cases. Every `ExtraCount`
written has a value from 2 to 32767; every sub-stack but the last carries the
marker 32767; when `totalCount` leaves remainder 1 modulo 32767 the last
sub-stack is a single unit whose list holds no `ExtraCount`, and otherwise the
last sub-stack carries a marker with the remaining count, which is at least
2. -/
theorem CreateForUnextendedEntry_markers (w : World) (entry : Nat) (totalCount : Int)
    (dataOut : List Data) (d : EntryData)
    (hcount : 1 ≤ totalCount) (hd : (w.entries entry).data = some d) :
    ∃ (w2 : World) (recs : List Data),
      CreateForUnextendedEntry w entry totalCount dataOut = some (w2, dataOut ++ recs) ∧
      (recs.length : Int) = (totalCount - 1) / 32767 + 1 ∧
      (∀ (i : Nat) (r : Data), recs[i]? = some r →
        ∃ a l, r.extendData = some a ∧ (w2.extendNodes a).data = some l ∧
          (l.HasType ExtraDataType.kExtraData_Count = true ↔
            1 < min 32767 (totalCount - 32767 * (i : Int))) ∧
          l.GetByType ExtraDataType.kExtraData_Count =
            (if 1 < min 32767 (totalCount - 32767 * (i : Int)) then
              some (ExtraCount.Create (min 32767 (totalCount - 32767 * (i : Int))))
            else none) ∧
          stackCount w2 r.extendData = min 32767 (totalCount - 32767 * (i : Int)) ∧
          (∀ x ∈ l.m_data, x.type = ExtraDataType.kExtraData_Count →
            2 ≤ x.value ∧ x.value ≤ 32767)) ∧
      (∀ r ∈ recs.dropLast, ∃ a l, r.extendData = some a ∧ (w2.extendNodes a).data = some l ∧
        l.GetByType ExtraDataType.kExtraData_Count = some (ExtraCount.Create 32767)) ∧
      (totalCount % 32767 = 1 → ∃ r a l, recs.getLast? = some r ∧ r.extendData = some a ∧
        (w2.extendNodes a).data = some l ∧
        l.HasType ExtraDataType.kExtraData_Count = false ∧ stackCount w2 r.extendData = 1) ∧
      (totalCount % 32767 ≠ 1 → ∃ r a l, recs.getLast? = some r ∧ r.extendData = some a ∧
        (w2.extendNodes a).data = some l ∧
        l.GetByType ExtraDataType.kExtraData_Count =
          some (ExtraCount.Create ((totalCount - 1) % 32767 + 1)) ∧
        2 ≤ (totalCount - 1) % 32767 + 1 ∧
        stackCount w2 r.extendData = (totalCount - 1) % 32767 + 1) := by
  obtain ⟨hlo, hhi⟩ := split_bounds totalCount hcount
  have h0 : 0 ≤ (totalCount - 1) / 32767 := Int.ediv_nonneg (by omega) (by norm_num)
  have hn : ((((totalCount - 1) / 32767).toNat : Nat) : Int) = (totalCount - 1) / 32767 :=
    Int.toNat_of_nonneg h0
  generalize ((totalCount - 1) / 32767).toNat = n at hlo hhi hn
  obtain ⟨w2, hrun, -, -, hmark, hlast, -, -, -⟩ :=
    CreateForUnextendedEntry_run w entry totalCount dataOut d n hlo hhi hd
  have hsplit : (List.range (n + 1)).map
        (fun i => (⟨d.type, some entry, some (w.heapTop + i)⟩ : Data))
      = (List.range n).map (fun i => (⟨d.type, some entry, some (w.heapTop + i)⟩ : Data))
        ++ [⟨d.type, some entry, some (w.heapTop + n)⟩] := by
    rw [List.range_succ]; simp
  have hrem : totalCount - 32767 * (n : Int) = (totalCount - 1) % 32767 + 1 := by omega
  refine ⟨w2, (List.range (n + 1)).map
      (fun i => (⟨d.type, some entry, some (w.heapTop + i)⟩ : Data)), hrun, ?_, ?_, ?_, ?_, ?_⟩
  · simp only [List.length_map, List.length_range]
    push_cast
    omega
  · intro i r hr
    have hi : i < n + 1 := by
      by_contra hge
      rw [List.getElem?_eq_none (by simpa using Nat.le_of_not_lt hge)] at hr
      cases hr
    rw [List.getElem?_map, List.getElem?_range hi] at hr
    simp only [Option.map_some', Option.some.injEq] at hr
    subst hr
    by_cases hin : i < n
    · have hsize : min 32767 (totalCount - 32767 * (i : Int)) = 32767 := by
        apply min_eq_left
        have : (i : Int) + 1 ≤ (n : Int) := by exact_mod_cast hin
        omega
      rw [hsize]
      refine ⟨w.heapTop + i, _, rfl, hmark i hin, ?_, ?_, ?_, ?_⟩
      · simp [BaseExtraList.HasType, ExtraCount.Create]
      · simp [BaseExtraList.GetByType, ExtraCount.Create]
      · exact stackCount_marked w2 _ _ (hmark i hin)
      · intro x hx _
        simp only [List.mem_singleton] at hx
        subst hx
        simp [ExtraCount.Create]
    · have hi' : i = n := by omega
      subst hi'
      have hsize : min 32767 (totalCount - 32767 * (i : Int)) = totalCount - 32767 * (i : Int) := by
        apply min_eq_right
        omega
      rw [hsize]
      refine ⟨w.heapTop + i, _, rfl, hlast, ?_, ?_, ?_, ?_⟩
      · by_cases hone : totalCount - 32767 * (i : Int) > 1
        · simp [hone, BaseExtraList.HasType, ExtraCount.Create]
        · simp [hone, BaseExtraList.HasType]
      · by_cases hone : totalCount - 32767 * (i : Int) > 1
        · simp [hone, BaseExtraList.GetByType, ExtraCount.Create]
        · simp [hone, BaseExtraList.GetByType]
      · by_cases hone : totalCount - 32767 * (i : Int) > 1
        · have hl := hlast
          rw [if_pos hone] at hl
          exact stackCount_marked w2 _ _ hl
        · have hl := hlast
          rw [if_neg hone] at hl
          rw [stackCount_unmarked w2 _ hl]
          omega
      · intro x hx _
        by_cases hone : totalCount - 32767 * (i : Int) > 1
        · rw [if_pos hone] at hx
          simp only [List.mem_singleton] at hx
          subst hx
          simp only [ExtraCount.Create]
          omega
        · rw [if_neg hone] at hx
          simp at hx
  · rw [hsplit, List.dropLast_concat]
    intro r hr
    simp only [List.mem_map, List.mem_range] at hr
    obtain ⟨i, hi, rfl⟩ := hr
    exact ⟨w.heapTop + i, _, rfl, hmark i hi, by simp [BaseExtraList.GetByType, ExtraCount.Create]⟩
  · intro hmod
    have hone : ¬ totalCount - 32767 * (n : Int) > 1 := by omega
    rw [if_neg hone] at hlast
    refine ⟨⟨d.type, some entry, some (w.heapTop + n)⟩, w.heapTop + n, _, ?_, rfl, hlast, ?_, ?_⟩
    · rw [hsplit]; simp
    · simp [BaseExtraList.HasType]
    · exact stackCount_unmarked w2 _ hlast
  · intro hmod
    have hone : totalCount - 32767 * (n : Int) > 1 := by omega
    rw [if_pos hone, hrem] at hlast
    refine ⟨⟨d.type, some entry, some (w.heapTop + n)⟩, w.heapTop + n, _, ?_, rfl, hlast, ?_, ?_, ?_⟩
    · rw [hsplit]; simp
    · simp [BaseExtraList.GetByType, ExtraCount.Create]
    · omega
    · exact stackCount_marked w2 _ _ hlast

/-- Claim C3, at two concrete inputs, both on the sample entry (address 10): a
total of 32768 units, which leaves a single-unit tail, and a total of 32770
units, which leaves a tail of three. -/
theorem CreateForUnextendedEntry_markers_sample :
    (∃ (w2 : World) (recs : List Data),
      CreateForUnextendedEntry sampleWorld 10 32768 [] = some (w2, [] ++ recs) ∧
      (recs.length : Int) = ((32768 : Int) - 1) / 32767 + 1 ∧
      (∀ (i : Nat) (r : Data), recs[i]? = some r →
        ∃ a l, r.extendData = some a ∧ (w2.extendNodes a).data = some l ∧
          (l.HasType ExtraDataType.kExtraData_Count = true ↔
            1 < min 32767 ((32768 : Int) - 32767 * (i : Int))) ∧
          l.GetByType ExtraDataType.kExtraData_Count =
            (if 1 < min 32767 ((32768 : Int) - 32767 * (i : Int)) then
              some (ExtraCount.Create (min 32767 ((32768 : Int) - 32767 * (i : Int))))
            else none) ∧
          stackCount w2 r.extendData = min 32767 ((32768 : Int) - 32767 * (i : Int)) ∧
          (∀ x ∈ l.m_data, x.type = ExtraDataType.kExtraData_Count →
            2 ≤ x.value ∧ x.value ≤ 32767)) ∧
      (∀ r ∈ recs.dropLast, ∃ a l, r.extendData = some a ∧ (w2.extendNodes a).data = some l ∧
        l.GetByType ExtraDataType.kExtraData_Count = some (ExtraCount.Create 32767)) ∧
      ((32768 : Int) % 32767 = 1 → ∃ r a l, recs.getLast? = some r ∧ r.extendData = some a ∧
        (w2.extendNodes a).data = some l ∧
        l.HasType ExtraDataType.kExtraData_Count = false ∧ stackCount w2 r.extendData = 1) ∧
      ((32768 : Int) % 32767 ≠ 1 → ∃ r a l, recs.getLast? = some r ∧ r.extendData = some a ∧
        (w2.extendNodes a).data = some l ∧
        l.GetByType ExtraDataType.kExtraData_Count =
          some (ExtraCount.Create (((32768 : Int) - 1) % 32767 + 1)) ∧
        2 ≤ ((32768 : Int) - 1) % 32767 + 1 ∧
        stackCount w2 r.extendData = ((32768 : Int) - 1) % 32767 + 1)) ∧
    (∃ (w2 : World) (recs : List Data),
      CreateForUnextendedEntry sampleWorld 10 32770 [] = some (w2, [] ++ recs) ∧
      (recs.length : Int) = ((32770 : Int) - 1) / 32767 + 1 ∧
      (∀ (i : Nat) (r : Data), recs[i]? = some r →
        ∃ a l, r.extendData = some a ∧ (w2.extendNodes a).data = some l ∧
          (l.HasType ExtraDataType.kExtraData_Count = true ↔
            1 < min 32767 ((32770 : Int) - 32767 * (i : Int))) ∧
          l.GetByType ExtraDataType.kExtraData_Count =
            (if 1 < min 32767 ((32770 : Int) - 32767 * (i : Int)) then
              some (ExtraCount.Create (min 32767 ((32770 : Int) - 32767 * (i : Int))))
            else none) ∧
          stackCount w2 r.extendData = min 32767 ((32770 : Int) - 32767 * (i : Int)) ∧
          (∀ x ∈ l.m_data, x.type = ExtraDataType.kExtraData_Count →
            2 ≤ x.value ∧ x.value ≤ 32767)) ∧
      (∀ r ∈ recs.dropLast, ∃ a l, r.extendData = some a ∧ (w2.extendNodes a).data = some l ∧
        l.GetByType ExtraDataType.kExtraData_Count = some (ExtraCount.Create 32767)) ∧
      ((32770 : Int) % 32767 = 1 → ∃ r a l, recs.getLast? = some r ∧ r.extendData = some a ∧
        (w2.extendNodes a).data = some l ∧
        l.HasType ExtraDataType.kExtraData_Count = false ∧ stackCount w2 r.extendData = 1) ∧
      ((32770 : Int) % 32767 ≠ 1 → ∃ r a l, recs.getLast? = some r ∧ r.extendData = some a ∧
        (w2.extendNodes a).data = some l ∧
        l.GetByType ExtraDataType.kExtraData_Count =
          some (ExtraCount.Create (((32770 : Int) - 1) % 32767 + 1)) ∧
        2 ≤ ((32770 : Int) - 1) % 32767 + 1 ∧
        stackCount w2 r.extendData = ((32770 : Int) - 1) % 32767 + 1)) :=
  ⟨CreateForUnextendedEntry_markers sampleWorld 10 32768 [] ⟨[20, 21], some sampleForm⟩
      (by decide) rfl,
    CreateForUnextendedEntry_markers sampleWorld 10 32770 [] ⟨[20, 21], some sampleForm⟩
      (by decide) rfl⟩

/-! ## Deferred queue: theorems -/

theorem SetData_none (w : World) (self : InventoryReference) (data : Data)
    (h : self.m_tempRef = none) : SetData w self data = none := by
  simp [SetData, h]

theorem SetData_some (w : World) (self : InventoryReference) (data : Data) (t : Nat)
    (h : self.m_tempRef = some t) :
    SetData w self data =
      some (true,
        w.setRef t { w.refs t with
          baseForm := data.type, baseExtraList := (extendList w data).getD ⟨[]⟩ },
        { self with m_bRemoved := false, m_data := data }) := by
  have hl : extendList (w.setRef t { w.refs t with baseForm := data.type }) data
      = extendList w data := rfl
  unfold SetData
  simp only [h, hl]
  cases he : extendList w data with
  | none =>
    simp only [WriteToExtraDataList, Option.isNone_some, Option.isNone_none, Bool.false_and,
      Bool.false_eq_true, if_false, Option.getD_none, Option.some.injEq, Prod.mk.injEq, true_and,
      and_true]
    simp only [World.setRef, World.mk.injEq, and_true, true_and]
    funext p
    by_cases hp : p = t <;> simp [hp]
  | some l =>
    simp only [WriteToExtraDataList, Option.isNone_some, Bool.false_and,
      Bool.false_eq_true, if_false, Option.getD_some, Option.some.injEq, Prod.mk.injEq, true_and,
      and_true]
    simp only [World.setRef, World.mk.injEq, and_true, true_and]
    funext p
    by_cases hp : p = t <;> simp [hp]

theorem Validate_setQueue (w : World) (q : List DeferredAction) (self : InventoryReference) :
    Validate w (setQueue q self) = Validate w self := rfl

theorem GetCount_setQueue (w : World) (q : List DeferredAction) (self : InventoryReference) :
    GetCount w (setQueue q self) = GetCount w self := rfl

theorem SetData_setQueue (w : World) (q : List DeferredAction) (self : InventoryReference)
    (data : Data) :
    SetData w (setQueue q self) data =
      (SetData w self data).map (fun r => (r.1, r.2.1, setQueue q r.2.2)) := by
  cases h : self.m_tempRef with
  | none => rw [SetData_none _ _ _ h, SetData_none _ _ _ (by simpa [setQueue] using h)]; rfl
  | some t =>
    rw [SetData_some _ _ _ t h, SetData_some _ _ _ t (by simpa [setQueue] using h)]
    rfl

theorem Execute_setQueue (eng : Engine) (action : DeferredAction) (w : World)
    (q : List DeferredAction) (self : InventoryReference) :
    action.Execute eng w (setQueue q self) =
      (action.Execute eng w self).map (fun r => (r.1, r.2.1, setQueue q r.2.2)) := by
  cases action with
  | DeferredEquipAction data =>
    simp only [DeferredAction.Execute, DeferredEquipAction.Execute, GetCount_setQueue]
    simp only [GetContainer, setQueue]
    repeat' split
    all_goals simp_all
  | DeferredRemoveAction data m_target =>
    simp only [DeferredAction.Execute, DeferredRemoveAction.Execute, GetCount_setQueue]
    have hc : GetContainer (setQueue q self) = GetContainer self := rfl
    rw [hc]
    cases GetContainer self with
    | none => rfl
    | some c =>
      simp only []
      cases GetCount w self with
      | none => rfl
      | some count =>
        simp only []
        have hs : SetRemoved (setQueue q self) = setQueue q (SetRemoved self) := rfl
        rw [hs, SetData_setQueue]
        cases SetData (eng.RemoveItem w c data.type (extendList w data) count m_target)
          (SetRemoved self) ⟨none, none, none⟩ <;> rfl

theorem applyAction_setQueue (eng : Engine) (w : World) (q : List DeferredAction)
    (self : InventoryReference) (action : DeferredAction) :
    applyAction eng (w, setQueue q self) action =
      (applyAction eng (w, self) action).map (fun r => (r.1, setQueue q r.2)) := by
  unfold applyAction
  simp only [SetData_setQueue]
  cases SetData w self action.Data with
  | none => rfl
  | some loaded =>
    simp only [Option.map_some', Validate_setQueue]
    cases Validate loaded.2.1 loaded.2.2 with
    | none => rfl
    | some v =>
      have hc : GetContainer (setQueue q loaded.2.2) = GetContainer loaded.2.2 := rfl
      simp only [hc, Execute_setQueue]
      by_cases hv : v = true ∧ (GetContainer loaded.2.2).isSome = true
      · simp only [hv, and_self, if_true]
        cases action.Execute eng loaded.2.1 loaded.2.2 <;> rfl
      · simp only [hv, if_false]
        rfl

theorem setQueue_self (self : InventoryReference) :
    setQueue self.m_deferredActions self = self := rfl

theorem applyAction_queue (eng : Engine) (w : World) (self : InventoryReference)
    (action : DeferredAction) (r : World × InventoryReference)
    (h : applyAction eng (w, self) action = some r) :
    r.2.m_deferredActions = self.m_deferredActions := by
  have h2 := applyAction_setQueue eng w self.m_deferredActions self action
  rw [setQueue_self, h] at h2
  simp only [Option.map_some', Option.some.injEq] at h2
  have h3 := congrArg (fun x => x.2.m_deferredActions) h2
  simpa [setQueue] using h3

theorem runFront_eq (eng : Engine) (w : World) (self : InventoryReference)
    (action : DeferredAction) :
    runFront eng w self action =
      (applyAction eng (w, self) action).map
        (fun r => (r.1, setQueue r.2.m_deferredActions.tail r.2)) := by
  unfold runFront applyAction
  cases SetData w self action.Data with
  | none => rfl
  | some loaded =>
    simp only []
    cases Validate loaded.2.1 loaded.2.2 with
    | none => rfl
    | some v =>
      simp only []
      by_cases hv : v = true ∧ (GetContainer loaded.2.2).isSome = true
      · simp only [hv, and_self, if_true]
        cases action.Execute eng loaded.2.1 loaded.2.2 <;> rfl
      · simp only [hv, if_false]
        rfl

theorem drainQueue_eq_foldlM (eng : Engine) (q : List DeferredAction) :
    ∀ (w : World) (self : InventoryReference), self.m_deferredActions = q →
      drainQueue eng q.length w self =
        q.foldlM (applyAction eng) (w, setQueue [] self) := by
  induction q with
  | nil =>
    intro w self hq
    have : setQueue [] self = self := by rw [← hq]; rfl
    simp [drainQueue, this]
  | cons a rest ih =>
    intro w self hq
    simp only [List.length_cons, drainQueue, hq, List.foldlM_cons]
    rw [runFront_eq, applyAction_setQueue]
    cases h : applyAction eng (w, self) a with
    | none => rfl
    | some r =>
      have hq2 : r.2.m_deferredActions = a :: rest := by
        rw [applyAction_queue eng w self a r h, hq]
      simp only [Option.map_some', hq2, List.tail_cons, Option.some_bind]
      rw [ih r.1 (setQueue rest r.2) rfl]
      rfl

/-- Claim C4: `DoDeferredActions` handles the queued actions front to back,
each once: its result is the left fold, over the queue in order, of the step
that loads the action's snapshot and runs its `Execute` exactly when the proxy
then validates and has a container, started from the proxy with the queue
emptied; and whenever it returns, the queue is empty. (A step that dereferences
NULL makes both sides undefined.) -/
theorem DoDeferredActions_fifo (eng : Engine) (w : World) (self : InventoryReference) :
    DoDeferredActions eng w self =
        self.m_deferredActions.foldlM (applyAction eng) (w, setQueue [] self) ∧
      ∀ r, DoDeferredActions eng w self = some r → r.2.m_deferredActions = [] := by
  have key := drainQueue_eq_foldlM eng self.m_deferredActions w self rfl
  refine ⟨key, ?_⟩
  unfold DoDeferredActions
  rw [key]
  generalize self.m_deferredActions = q
  generalize hs : setQueue [] self = s0
  have hs0 : s0.m_deferredActions = [] := by rw [← hs]; rfl
  clear hs key
  induction q generalizing w s0 with
  | nil =>
    intro r hr
    simp only [List.foldlM_nil] at hr
    cases hr
    exact hs0
  | cons a rest ih =>
    intro r hr
    simp only [List.foldlM_cons] at hr
    cases h : applyAction eng (w, s0) a with
    | none => rw [h] at hr; cases hr
    | some r1 =>
      rw [h] at hr
      exact ih r1.1 r1.2 (by rw [applyAction_queue eng w s0 a r1 h, hs0]) r hr

/-! ## Operations on a stale proxy: theorems -/

/-- Claim C5: on a proxy that fails validation each of `RemoveFromContainer`,
`MoveToContainer`, `CopyToContainer` (for any non-NULL destination) and
`WriteRefDataToContainer` returns false and leaves the world (placeholder,
source and destination containers) and the proxy (data, removed flag, queue)
exactly as they were. -/
theorem stale_proxy_operations_noop (eng : Engine) (w : World) (self : InventoryReference)
    (dest : Nat) (hv : Validate w self = some false) :
    RemoveFromContainer eng w self = some (false, w, self) ∧
    MoveToContainer eng w self (some dest) = some (false, w, self) ∧
    CopyToContainer eng w self (some dest) = some (false, w, self) ∧
    WriteRefDataToContainer w self = some (false, w, self) := by
  refine ⟨?_, ?_, ?_, ?_⟩
  · simp [RemoveFromContainer, hv]
  · unfold MoveToContainer
    simp only [GetForRef, hv]
    cases (w.refs dest).xChanges.isSome <;> cases self.m_tempRef <;> simp
  · unfold CopyToContainer
    simp only [GetForRef, hv]
    cases (w.refs dest).xChanges.isSome <;> cases self.m_tempRef <;> simp
  · unfold WriteRefDataToContainer
    cases self.m_tempRef <;> simp [hv]

/-- Claim C5, at a concrete input: the stale sample proxy. -/
theorem stale_proxy_operations_noop_sample :
    Validate sampleWorld sampleProxyStale = some false ∧
    (RemoveFromContainer sampleEngine sampleWorld sampleProxyStale
        = some (false, sampleWorld, sampleProxyStale) ∧
      MoveToContainer sampleEngine sampleWorld sampleProxyStale (some 3)
        = some (false, sampleWorld, sampleProxyStale) ∧
      CopyToContainer sampleEngine sampleWorld sampleProxyStale (some 3)
        = some (false, sampleWorld, sampleProxyStale) ∧
      WriteRefDataToContainer sampleWorld sampleProxyStale
        = some (false, sampleWorld, sampleProxyStale)) :=
  ⟨by decide, stale_proxy_operations_noop sampleEngine sampleWorld sampleProxyStale 3 (by decide)⟩

/-! ## Equip toggling: theorems -/

theorem dataIsWorn_eq (w : World) (data : Data) :
    dataIsWorn w data = match extendList w data with
      | some l => l.IsWorn
      | none => false := by
  unfold dataIsWorn extendList
  cases data.extendData with
  | none => rfl
  | some ed => cases (w.extendNodes ed).data <;> rfl

/-- Claim C6: `SetEquipped(b)` returns true exactly when the worn status of the
underlying data (not worn when the proxy has no extend-data node or the node has
no list) differs from `b`; in that case the proxy afterwards is the proxy before
with one `DeferredEquipAction` carrying its current data pushed at the back of
the queue; otherwise the proxy is unchanged. The operation has no access to the
world, so the worn status and every container list stay as they are, and the
removed flag and the data of the proxy are the same in both cases. -/
theorem SetEquipped_queues_iff_differs (w : World) (self : InventoryReference) (b : Bool) :
    ((SetEquipped w self b).1 = true ↔ dataIsWorn w self.m_data ≠ b) ∧
    (dataIsWorn w self.m_data ≠ b →
      (SetEquipped w self b).2 =
        { self with m_deferredActions :=
            self.m_deferredActions ++ [DeferredAction.DeferredEquipAction self.m_data] }) ∧
    (dataIsWorn w self.m_data = b → SetEquipped w self b = (false, self)) ∧
    (SetEquipped w self b).2.m_bRemoved = self.m_bRemoved ∧
    (SetEquipped w self b).2.m_data = self.m_data ∧
    (SetEquipped w self b).2.m_containerRef = self.m_containerRef ∧
    (SetEquipped w self b).2.m_tempRef = self.m_tempRef := by
  rw [dataIsWorn_eq]
  unfold SetEquipped
  cases extendList w self.m_data with
  | none =>
    cases b <;> simp [QueueAction]
  | some l =>
    cases hw : BaseExtraList.IsWorn l <;> cases b <;> simp [QueueAction, hw]

/-! ## Remove and move: theorems -/

theorem entry_of_validates (w : World) (self : InventoryReference)
    (hv : Validate w self = some true)
    (he : self.m_bDoValidation = false → self.m_data.entry ≠ none) :
    ∃ entry, self.m_data.entry = some entry := by
  by_cases hval : self.m_bDoValidation = true
  · exact Validate_true_entry w self hval hv
  · have := he (by simpa using hval)
    cases h : self.m_data.entry with
    | none => exact absurd h this
    | some e => exact ⟨e, rfl⟩

/-- Claim C7 as stated fails: a proxy with validation disabled whose data has
been cleared validates, has a placeholder and a container and is not worn, yet
`RemoveFromContainer` on it has no result, because line 168 calls `Remove`
through the NULL entry pointer. The code itself produces this proxy: it is what
a flushed deferred removal leaves of the sample proxy with validation
disabled. -/
theorem RemoveFromContainer_cleared_proxy_undefined :
    (DoDeferredActions sampleEngine sampleWorldWorn sampleProxyUnchecked).map
        (fun r => (r.2, Validate r.1 r.2, dataIsWorn r.1 r.2.m_data,
          (RemoveFromContainer sampleEngine r.1 r.2).isNone)) =
      some (sampleProxyReleased, some true, false, true) ∧
    Validate sampleWorld sampleProxyReleased = some true ∧
    sampleProxyReleased.m_tempRef = some 2 ∧
    sampleProxyReleased.m_containerRef = some 1 ∧
    dataIsWorn sampleWorld sampleProxyReleased.m_data = false ∧
    RemoveFromContainer sampleEngine sampleWorld sampleProxyReleased = none := by
  refine ⟨?_, ?_, rfl, rfl, ?_, rfl⟩ <;> decide

/-- Claim C7, amended: for a proxy that validates, has a placeholder and a
container, whose entry pointer is non-NULL (validation itself ensures this when
it is enabled; with validation disabled it is a condition on the proxy) and
whose data is not worn, `RemoveFromContainer` raises the removed flag, calls
`entry->Remove(extendData, true)` (the deletion that frees the data) on the
snapshotted entry with the snapshotted extend-data, leaves the queue and the
rest of the proxy as they were, and returns the result of that deletion; the
world afterwards is the world that deletion leaves. -/
theorem RemoveFromContainer_unworn (eng : Engine) (w : World) (self : InventoryReference)
    (t c : Nat)
    (hv : Validate w self = some true) (ht : self.m_tempRef = some t)
    (hc : self.m_containerRef = some c)
    (he : self.m_bDoValidation = false → self.m_data.entry ≠ none)
    (hworn : dataIsWorn w self.m_data = false) :
    ∃ entry, self.m_data.entry = some entry ∧
      RemoveFromContainer eng w self =
        some ((eng.EntryRemove w entry self.m_data.extendData true).2,
          (eng.EntryRemove w entry self.m_data.extendData true).1,
          { self with m_bRemoved := true }) := by
  obtain ⟨entry, hentry⟩ := entry_of_validates w self hv he
  refine ⟨entry, hentry, ?_⟩
  simp [RemoveFromContainer, hv, ht, hc, hworn, SetRemoved, hentry]

/-- Claim C7 amended, at two concrete inputs on the world that holds a stack of
five. For the validating sample proxy the sample host unlinks node 20 from the
entry's chain and the call returns true; for the proxy with validation disabled
whose extend-data pointer (25) is not in the chain the host's deletion fails,
the call returns false and the flag is raised all the same. -/
theorem RemoveFromContainer_unworn_sample :
    ((RemoveFromContainer sampleEngine sampleWorldStack sampleProxy).map
        (fun r => (r.1, r.2.2, (r.2.1.entries 10).data)) =
      some (true, { sampleProxy with m_bRemoved := true }, some ⟨[21], some sampleForm⟩) ∧
    ∃ entry, sampleProxy.m_data.entry = some entry ∧
      RemoveFromContainer sampleEngine sampleWorldStack sampleProxy =
        some ((sampleEngine.EntryRemove sampleWorldStack entry
              sampleProxy.m_data.extendData true).2,
          (sampleEngine.EntryRemove sampleWorldStack entry sampleProxy.m_data.extendData true).1,
          { sampleProxy with m_bRemoved := true })) ∧
    ((RemoveFromContainer sampleEngine sampleWorldStack sampleProxyDetached).map
        (fun r => (r.1, r.2.2, (r.2.1.entries 10).data)) =
      some (false, { sampleProxyDetached with m_bRemoved := true },
        some ⟨[20, 21], some sampleForm⟩) ∧
    ∃ entry, sampleProxyDetached.m_data.entry = some entry ∧
      RemoveFromContainer sampleEngine sampleWorldStack sampleProxyDetached =
        some ((sampleEngine.EntryRemove sampleWorldStack entry
              sampleProxyDetached.m_data.extendData true).2,
          (sampleEngine.EntryRemove sampleWorldStack entry
              sampleProxyDetached.m_data.extendData true).1,
          { sampleProxyDetached with m_bRemoved := true })) :=
  ⟨⟨by decide, RemoveFromContainer_unworn sampleEngine sampleWorldStack sampleProxy 2 1
      (by decide) rfl rfl (by decide) (by decide)⟩,
    ⟨by decide, RemoveFromContainer_unworn sampleEngine sampleWorldStack sampleProxyDetached 2 1
      (by decide) rfl rfl (by decide) (by decide)⟩⟩

/-- Claim C8 as stated fails: a proxy with validation disabled whose data has
been cleared validates, has a placeholder and a container and is not worn, and
the destination (address 3) has a container-change list, yet `MoveToContainer`
on it has no result, because line 181 calls `Remove` through the NULL entry
pointer. The code itself produces this proxy: it is what a flushed deferred
removal leaves of the sample proxy with validation disabled. -/
theorem MoveToContainer_cleared_proxy_undefined :
    (DoDeferredActions sampleEngine sampleWorldWorn sampleProxyUnchecked).map
        (fun r => (r.2, Validate r.1 r.2, dataIsWorn r.1 r.2.m_data,
          (r.1.refs 3).xChanges.isSome,
          (MoveToContainer sampleEngine r.1 r.2 (some 3)).isNone)) =
      some (sampleProxyReleased, some true, false, true, true) ∧
    Validate sampleWorld sampleProxyReleased = some true ∧
    sampleProxyReleased.m_tempRef = some 2 ∧
    sampleProxyReleased.m_containerRef = some 1 ∧
    dataIsWorn sampleWorld sampleProxyReleased.m_data = false ∧
    (sampleWorld.refs 3).xChanges.isSome = true ∧
    MoveToContainer sampleEngine sampleWorld sampleProxyReleased (some 3) = none := by
  refine ⟨?_, ?_, rfl, rfl, ?_, ?_, rfl⟩ <;> decide

/-- Claim C8, amended: for a proxy that validates, has a placeholder and a
container, whose entry pointer is non-NULL (validation itself ensures this when
it is enabled; with validation disabled it is a condition on the proxy) and
whose data is not worn, and a destination that has a container-change list,
with the host's `Remove` leaving the placeholder object alone: when
`entry->Remove(extendData, false)` fails, `MoveToContainer` returns false, the
proxy is unchanged and the world is the one the failed removal left (`Add` is
not called); when it succeeds, the removed flag is raised, the placeholder's
extra data is emptied, `Add` is called on the destination with the
placeholder's base form and a fresh list holding a duplicate of the
placeholder's extra data as it was before the call, and the result is whether
`Add` succeeded. -/
theorem MoveToContainer_unworn (eng : Engine) (w : World) (self : InventoryReference)
    (t c dest : Nat)
    (hv : Validate w self = some true) (ht : self.m_tempRef = some t)
    (hc : self.m_containerRef = some c)
    (he : self.m_bDoValidation = false → self.m_data.entry ≠ none)
    (hworn : dataIsWorn w self.m_data = false)
    (hdest : (w.refs dest).xChanges.isSome = true)
    (hframe : ∀ entry, self.m_data.entry = some entry →
      (eng.EntryRemove w entry self.m_data.extendData false).1.refs t = w.refs t) :
    ∃ entry, self.m_data.entry = some entry ∧
      ((eng.EntryRemove w entry self.m_data.extendData false).2 = false →
        MoveToContainer eng w self (some dest) =
          some (false, (eng.EntryRemove w entry self.m_data.extendData false).1, self)) ∧
      ((eng.EntryRemove w entry self.m_data.extendData false).2 = true →
        MoveToContainer eng w self (some dest) =
          some ((eng.Add
              ((eng.EntryRemove w entry self.m_data.extendData false).1.setRef t
                { w.refs t with baseExtraList := ⟨[]⟩ })
              dest (w.refs t).baseForm ⟨(w.refs t).baseExtraList.m_data⟩).2,
            (eng.Add
              ((eng.EntryRemove w entry self.m_data.extendData false).1.setRef t
                { w.refs t with baseExtraList := ⟨[]⟩ })
              dest (w.refs t).baseForm ⟨(w.refs t).baseExtraList.m_data⟩).1,
            { self with m_bRemoved := true })) := by
  obtain ⟨entry, hentry⟩ := entry_of_validates w self hv he
  have hfr := hframe entry hentry
  refine ⟨entry, hentry, ?_, ?_⟩
  · intro hr
    simp [MoveToContainer, GetForRef, hdest, hv, ht, hc, hworn, hentry, hr]
  · intro hr
    simp only [MoveToContainer, GetForRef, hdest, hv, ht, hc, hworn, hentry, hr, if_true, true_and,
      Option.isSome_some, and_self, Bool.false_eq_true, if_false, SetRemoved, hfr,
      BaseExtraList.RemoveAll, BaseExtraList.Copy, ExtraDataList.Create, List.append_nil]
    have hb : (((eng.EntryRemove w entry self.m_data.extendData false).1.setRef t
        { w.refs t with baseExtraList := ⟨[]⟩ }).refs t).baseForm = (w.refs t).baseForm := by
      simp [World.setRef]
    rw [hb]

/-- Claim C8 amended, at two concrete inputs on the world that holds a stack of
five, where the placeholder (address 2) has the sample form and a list with a
count of 5, both moved to the second sample container (address 3). For the
validating sample proxy the removal from the source entry succeeds: the call
returns true, the flag is raised, node 20 leaves the source chain, the
placeholder's list is emptied, and the destination's change list gains one
entry (address 22) for the sample form whose node holds the count of 5. For
the proxy with validation disabled whose extend-data pointer (25) is not in the
chain the removal fails: the call returns false, the proxy is unchanged, and
neither the placeholder nor the destination's change list changes. -/
theorem MoveToContainer_unworn_sample :
    ((sampleWorldStack.refs 2).baseForm = some sampleForm ∧
    (sampleWorldStack.refs 2).baseExtraList = ⟨[ExtraCount.Create 5]⟩ ∧
    (sampleEngine.EntryRemove sampleWorldStack 10 sampleProxy.m_data.extendData false).2 = true ∧
    (MoveToContainer sampleEngine sampleWorldStack sampleProxy (some 3)).map
        (fun r => (r.1, r.2.2, (r.2.1.entries 10).data)) =
      some (true, { sampleProxy with m_bRemoved := true }, some ⟨[21], some sampleForm⟩) ∧
    (MoveToContainer sampleEngine sampleWorldStack sampleProxy (some 3)).map
        (fun r => ((r.2.1.refs 2).baseExtraList.m_data, (r.2.1.refs 3).xChanges,
          (r.2.1.entries 22).data, (r.2.1.extendNodes 22).data)) =
      some ([], some ⟨some ⟨[22]⟩⟩, some ⟨[22], some sampleForm⟩,
        some ⟨[ExtraCount.Create 5]⟩) ∧
    ∃ entry, sampleProxy.m_data.entry = some entry ∧
      ((sampleEngine.EntryRemove sampleWorldStack entry
            sampleProxy.m_data.extendData false).2 = false →
        MoveToContainer sampleEngine sampleWorldStack sampleProxy (some 3) =
          some (false,
            (sampleEngine.EntryRemove sampleWorldStack entry
              sampleProxy.m_data.extendData false).1,
            sampleProxy)) ∧
      ((sampleEngine.EntryRemove sampleWorldStack entry
            sampleProxy.m_data.extendData false).2 = true →
        MoveToContainer sampleEngine sampleWorldStack sampleProxy (some 3) =
          some ((sampleEngine.Add
              ((sampleEngine.EntryRemove sampleWorldStack entry
                  sampleProxy.m_data.extendData false).1.setRef 2
                { sampleWorldStack.refs 2 with baseExtraList := ⟨[]⟩ })
              3 (sampleWorldStack.refs 2).baseForm
              ⟨(sampleWorldStack.refs 2).baseExtraList.m_data⟩).2,
            (sampleEngine.Add
              ((sampleEngine.EntryRemove sampleWorldStack entry
                  sampleProxy.m_data.extendData false).1.setRef 2
                { sampleWorldStack.refs 2 with baseExtraList := ⟨[]⟩ })
              3 (sampleWorldStack.refs 2).baseForm
              ⟨(sampleWorldStack.refs 2).baseExtraList.m_data⟩).1,
            { sampleProxy with m_bRemoved := true }))) ∧
    ((sampleEngine.EntryRemove sampleWorldStack 10
        sampleProxyDetached.m_data.extendData false).2 = false ∧
    (MoveToContainer sampleEngine sampleWorldStack sampleProxyDetached (some 3)).map
        (fun r => (r.1, r.2.2, (r.2.1.entries 10).data)) =
      some (false, sampleProxyDetached, some ⟨[20, 21], some sampleForm⟩) ∧
    (MoveToContainer sampleEngine sampleWorldStack sampleProxyDetached (some 3)).map
        (fun r => ((r.2.1.refs 2).baseExtraList.m_data, (r.2.1.refs 3).xChanges,
          r.2.1.heapTop)) =
      some ([ExtraCount.Create 5], some ⟨some ⟨[]⟩⟩, 22) ∧
    ∃ entry, sampleProxyDetached.m_data.entry = some entry ∧
      ((sampleEngine.EntryRemove sampleWorldStack entry
            sampleProxyDetached.m_data.extendData false).2 = false →
        MoveToContainer sampleEngine sampleWorldStack sampleProxyDetached (some 3) =
          some (false,
            (sampleEngine.EntryRemove sampleWorldStack entry
              sampleProxyDetached.m_data.extendData false).1,
            sampleProxyDetached)) ∧
      ((sampleEngine.EntryRemove sampleWorldStack entry
            sampleProxyDetached.m_data.extendData false).2 = true →
        MoveToContainer sampleEngine sampleWorldStack sampleProxyDetached (some 3) =
          some ((sampleEngine.Add
              ((sampleEngine.EntryRemove sampleWorldStack entry
                  sampleProxyDetached.m_data.extendData false).1.setRef 2
                { sampleWorldStack.refs 2 with baseExtraList := ⟨[]⟩ })
              3 (sampleWorldStack.refs 2).baseForm
              ⟨(sampleWorldStack.refs 2).baseExtraList.m_data⟩).2,
            (sampleEngine.Add
              ((sampleEngine.EntryRemove sampleWorldStack entry
                  sampleProxyDetached.m_data.extendData false).1.setRef 2
                { sampleWorldStack.refs 2 with baseExtraList := ⟨[]⟩ })
              3 (sampleWorldStack.refs 2).baseForm
              ⟨(sampleWorldStack.refs 2).baseExtraList.m_data⟩).1,
            { sampleProxyDetached with m_bRemoved := true }))) :=
  ⟨⟨by decide, by decide, by decide, by decide, by decide,
      MoveToContainer_unworn sampleEngine sampleWorldStack sampleProxy 2 1 3
        (by decide) rfl rfl (by decide) (by decide) (by decide)
        (by intro entry h; cases h; decide)⟩,
    ⟨by decide, by decide, by decide,
      MoveToContainer_unworn sampleEngine sampleWorldStack sampleProxyDetached 2 1 3
        (by decide) rfl rfl (by decide) (by decide) (by decide)
        (by intro entry h; cases h; decide)⟩⟩

/-- Claim C9: for a proxy that validates, has a placeholder and a container and
whose data is worn, `RemoveFromContainer` and `MoveToContainer` (to a
destination with a container-change list) return true, leave the world as it
was, and change the proxy only by pushing one `DeferredRemoveAction` carrying
its current data at the back of the queue, with no target for the removal and
the destination as target for the move; the removed flag keeps its value. -/
theorem worn_remove_and_move_defer (eng : Engine) (w : World) (self : InventoryReference)
    (t c dest : Nat)
    (hv : Validate w self = some true) (ht : self.m_tempRef = some t)
    (hc : self.m_containerRef = some c)
    (hworn : dataIsWorn w self.m_data = true)
    (hdest : (w.refs dest).xChanges.isSome = true) :
    RemoveFromContainer eng w self =
      some (true, w, { self with m_deferredActions :=
        self.m_deferredActions ++ [DeferredAction.DeferredRemoveAction self.m_data none] }) ∧
    MoveToContainer eng w self (some dest) =
      some (true, w, { self with m_deferredActions :=
        self.m_deferredActions ++ [DeferredAction.DeferredRemoveAction self.m_data (some dest)] }) := by
  constructor
  · simp [RemoveFromContainer, hv, ht, hc, hworn, QueueAction]
  · simp [MoveToContainer, GetForRef, hdest, hv, ht, hc, hworn, QueueAction]

/-- Claim C9, at a concrete input: the sample proxy on the world where its
extend-data carries a worn marker. -/
theorem worn_remove_and_move_defer_sample :
    RemoveFromContainer sampleEngine sampleWorldWorn sampleProxy =
      some (true, sampleWorldWorn, { sampleProxy with m_deferredActions :=
        sampleProxy.m_deferredActions ++
          [DeferredAction.DeferredRemoveAction sampleProxy.m_data none] }) ∧
    MoveToContainer sampleEngine sampleWorldWorn sampleProxy (some 3) =
      some (true, sampleWorldWorn, { sampleProxy with m_deferredActions :=
        sampleProxy.m_deferredActions ++
          [DeferredAction.DeferredRemoveAction sampleProxy.m_data (some 3)] }) :=
  worn_remove_and_move_defer sampleEngine sampleWorldWorn sampleProxy 2 1 3
    (by decide) rfl rfl (by decide) (by decide)

/-! ## Copy: theorems -/

/-- Claim C10, evaluated on the code: with a placeholder that carries both a
`Worn` and a `WornLeft` marker, the list `CopyToContainer` hands to the
destination (here recorded by the sample host in a new entry, address 22, of the
destination's change list) still holds the `WornLeft` marker and counts as
worn. The comment on line 199 reads "if worn, mark as unequipped", but line 200
removes `WornLeft` only when no `Worn` marker was removed, so a copy of an item
worn in both slots stays worn. -/
theorem CopyToContainer_both_markers_keeps_WornLeft :
    Validate sampleWorldBoth sampleProxy = some true ∧
    (sampleWorldBoth.refs 2).baseExtraList =
      ⟨[⟨ExtraDataType.kExtraData_Worn, 0⟩, ⟨ExtraDataType.kExtraData_WornLeft, 0⟩]⟩ ∧
    (CopyToContainer sampleEngine sampleWorldBoth sampleProxy (some 3)).map
        (fun r => (r.1, (r.2.1.refs 3).xChanges, (r.2.1.entries 22).data,
          (r.2.1.extendNodes 22).data)) =
      some (true, some ⟨some ⟨[22]⟩⟩, some ⟨[22], some sampleForm⟩,
        some ⟨[⟨ExtraDataType.kExtraData_WornLeft, 0⟩]⟩) ∧
    (⟨[⟨ExtraDataType.kExtraData_WornLeft, 0⟩]⟩ : BaseExtraList).HasType
      ExtraDataType.kExtraData_WornLeft = true ∧
    (⟨[⟨ExtraDataType.kExtraData_WornLeft, 0⟩]⟩ : BaseExtraList).IsWorn = true := by
  refine ⟨by decide, rfl, ?_, by decide, by decide⟩
  decide

/-- What `CopyToContainer` hands over, for every placeholder: for a proxy that
validates and has a placeholder, and a destination with a container-change
list, `CopyToContainer` leaves the proxy as it was and calls `Add` on the
destination with the placeholder's base form and a list `L` that holds no
`Worn` marker; when the placeholder's extra data holds no `Worn` marker, `L`
holds no `WornLeft` marker either and is the placeholder's data without its
`WornLeft` markers; when it holds a `Worn` marker, `L` is the placeholder's data
without its `Worn` markers (a `WornLeft` marker next to a `Worn` one is
kept). -/
theorem CopyToContainer_strips_marker (eng : Engine) (w : World) (self : InventoryReference)
    (t dest : Nat)
    (hv : Validate w self = some true) (ht : self.m_tempRef = some t)
    (hdest : (w.refs dest).xChanges.isSome = true) :
    ∃ L : ExtraDataList,
      CopyToContainer eng w self (some dest) =
        some ((eng.Add w dest (w.refs t).baseForm L).2,
          (eng.Add w dest (w.refs t).baseForm L).1, self) ∧
      L.HasType ExtraDataType.kExtraData_Worn = false ∧
      ((w.refs t).baseExtraList.HasType ExtraDataType.kExtraData_Worn = false →
        L.HasType ExtraDataType.kExtraData_WornLeft = false ∧
        L.m_data = (w.refs t).baseExtraList.m_data.filter
          (fun x => !decide (x.type = ExtraDataType.kExtraData_WornLeft))) ∧
      ((w.refs t).baseExtraList.HasType ExtraDataType.kExtraData_Worn = true →
        L.m_data = (w.refs t).baseExtraList.m_data.filter
          (fun x => !decide (x.type = ExtraDataType.kExtraData_Worn))) := by
  by_cases hW : (w.refs t).baseExtraList.HasType ExtraDataType.kExtraData_Worn = true
  · refine ⟨⟨(w.refs t).baseExtraList.m_data.filter
        (fun x => !decide (x.type = ExtraDataType.kExtraData_Worn))⟩, ?_, ?_, ?_, ?_⟩
    · have hW2 : (⟨(w.refs t).baseExtraList.m_data⟩ : BaseExtraList).HasType
          ExtraDataType.kExtraData_Worn = true := hW
      simp [CopyToContainer, GetForRef, hdest, hv, ht, BaseExtraList.Copy, ExtraDataList.Create,
        BaseExtraList.RemoveByType, hW2]
    · simp [BaseExtraList.HasType]
    · intro h; rw [h] at hW; cases hW
    · intro _; rfl
  · have hW1 : (w.refs t).baseExtraList.HasType ExtraDataType.kExtraData_Worn = false := by
      simpa using hW
    have hW2 : (⟨(w.refs t).baseExtraList.m_data⟩ : BaseExtraList).HasType
        ExtraDataType.kExtraData_Worn = false := hW1
    have hfil : (w.refs t).baseExtraList.m_data.filter
        (fun x => !decide (x.type = ExtraDataType.kExtraData_Worn))
        = (w.refs t).baseExtraList.m_data := by
      rw [List.filter_eq_self]
      intro x hx
      simp only [BaseExtraList.HasType, List.any_eq_false] at hW1
      simpa using hW1 x hx
    refine ⟨⟨(w.refs t).baseExtraList.m_data.filter
        (fun x => !decide (x.type = ExtraDataType.kExtraData_WornLeft))⟩, ?_, ?_, ?_, ?_⟩
    · simp [CopyToContainer, GetForRef, hdest, hv, ht, BaseExtraList.Copy, ExtraDataList.Create,
        BaseExtraList.RemoveByType, hW2, hfil]
    · simp only [BaseExtraList.HasType, List.any_eq_false] at hW1 ⊢
      intro x hx
      exact hW1 x (List.mem_of_mem_filter hx)
    · intro _
      exact ⟨by simp [BaseExtraList.HasType], rfl⟩
    · intro h; rw [h] at hW1; cases hW1

/-- The list `CopyToContainer` hands over, at a concrete input: the sample
proxy copied to the second sample container from the world where the
placeholder carries both markers. -/
theorem CopyToContainer_strips_marker_sample :
    ∃ L : ExtraDataList,
      CopyToContainer sampleEngine sampleWorldBoth sampleProxy (some 3) =
        some ((sampleEngine.Add sampleWorldBoth 3 (sampleWorldBoth.refs 2).baseForm L).2,
          (sampleEngine.Add sampleWorldBoth 3 (sampleWorldBoth.refs 2).baseForm L).1,
          sampleProxy) ∧
      L.HasType ExtraDataType.kExtraData_Worn = false ∧
      ((sampleWorldBoth.refs 2).baseExtraList.HasType ExtraDataType.kExtraData_Worn = false →
        L.HasType ExtraDataType.kExtraData_WornLeft = false ∧
        L.m_data = (sampleWorldBoth.refs 2).baseExtraList.m_data.filter
          (fun x => !decide (x.type = ExtraDataType.kExtraData_WornLeft))) ∧
      ((sampleWorldBoth.refs 2).baseExtraList.HasType ExtraDataType.kExtraData_Worn = true →
        L.m_data = (sampleWorldBoth.refs 2).baseExtraList.m_data.filter
          (fun x => !decide (x.type = ExtraDataType.kExtraData_Worn))) :=
  CopyToContainer_strips_marker sampleEngine sampleWorldBoth sampleProxy 2 3
    (by decide) rfl (by decide)

/-! ## Copy leaves the source alone: theorems -/

theorem sourceUnchanged_refl (w : World) (self : InventoryReference) :
    sourceUnchanged w w self :=
  ⟨fun _ _ => rfl, fun _ _ => ⟨rfl, fun _ _ _ _ => ⟨rfl, fun _ _ _ _ => rfl⟩⟩⟩

/-- Claim C11: whenever validation itself is defined, `CopyToContainer` to a
non-NULL destination returns, gives back the proxy exactly as it was (data,
removed flag, queue), and the only write it makes to the world is at most one
call of the host's `Add` on the destination; with a host whose `Add` on that
destination leaves the source side alone (the destination being another
object), the placeholder (its extra data and worn markers included), the source
container and every entry and extend-data node of its change list are the same
after the call as before, whether the copy succeeded or failed. -/
theorem CopyToContainer_source_untouched (eng : Engine) (w : World)
    (self : InventoryReference) (dest : Nat) (v : Bool)
    (hv : Validate w self = some v)
    (hAdd : ∀ form L, sourceUnchanged w (eng.Add w dest form L).1 self) :
    ∃ r, CopyToContainer eng w self (some dest) = some r ∧
      r.2.2 = self ∧
      (r.2.1 = w ∨ ∃ form L, r.2.1 = (eng.Add w dest form L).1) ∧
      sourceUnchanged w r.2.1 self := by
  unfold CopyToContainer
  simp only [GetForRef, hv]
  by_cases hx : (w.refs dest).xChanges.isSome = true
  · simp only [hx, if_true]
    cases ht : self.m_tempRef with
    | none => exact ⟨_, rfl, rfl, Or.inl rfl, sourceUnchanged_refl w self⟩
    | some t =>
      cases v with
      | false => exact ⟨_, rfl, rfl, Or.inl rfl, sourceUnchanged_refl w self⟩
      | true => exact ⟨_, rfl, rfl, Or.inr ⟨_, _, rfl⟩, hAdd _ _⟩
  · simp only [hx, if_false]
    exact ⟨_, rfl, rfl, Or.inl rfl, sourceUnchanged_refl w self⟩

/-- Claim C11, at a concrete input: the sample proxy, whose placeholder carries
both worn markers, copied to the second sample container. -/
theorem CopyToContainer_source_untouched_sample :
    ∃ r, CopyToContainer sampleEngine sampleWorldBoth sampleProxy (some 3) = some r ∧
      r.2.2 = sampleProxy ∧
      (r.2.1 = sampleWorldBoth ∨
        ∃ form L, r.2.1 = (sampleEngine.Add sampleWorldBoth 3 form L).1) ∧
      sourceUnchanged sampleWorldBoth r.2.1 sampleProxy :=
  CopyToContainer_source_untouched sampleEngine sampleWorldBoth sampleProxy 3 true (by decide)
    (by
      intro form L
      refine ⟨?_, ?_⟩
      · intro t ht
        cases ht
        rfl
      · intro c hc
        cases hc
        refine ⟨rfl, ?_⟩
        intro cd hcd e he
        have hcd' : cd = ⟨[10]⟩ := by
          have : (sampleWorldBoth.refs 1).xChanges = some ⟨some ⟨[10]⟩⟩ := rfl
          rw [this] at hcd
          cases hcd
          rfl
        subst hcd'
        simp only [List.mem_singleton] at he
        subst he
        refine ⟨rfl, ?_⟩
        intro d hd n hn
        have hd' : d = ⟨[20, 21], some sampleForm⟩ := by
          have : (sampleWorldBoth.entries 10).data = some ⟨[20, 21], some sampleForm⟩ := rfl
          rw [this] at hd
          cases hd
          rfl
        subst hd'
        simp only [List.mem_cons, List.mem_singleton, List.not_mem_nil, or_false] at hn
        rcases hn with rfl | rfl <;> rfl)

/-! ## Deferred equip: theorems -/

/-- Claim C14: `DeferredEquipAction::Execute` on a proxy whose container is an
actor returns true and makes one request: `UnequipItem` of 1 unit when the
action's data is worn; otherwise, for an item with a form, `EquipItem` with the
proxy's `GetCount()` reduced to an unsigned 16-bit value when the form type is
ammunition and with count 1 for every other form type. When the proxy has no
container or its container is not an actor it returns false and the world is
untouched. The proxy is the same afterwards in every case. -/
theorem DeferredEquipAction_Execute_requests (eng : Engine) (data : Data) (w : World)
    (iref : InventoryReference) :
    (∀ actor, GetContainer iref = some actor → (w.refs actor).isActor = true →
      (dataIsWorn w data = true →
        DeferredEquipAction.Execute eng data w iref =
          some (true, eng.UnequipItem w actor data.type 1 (extendList w data), iref)) ∧
      (dataIsWorn w data = false → ∀ form, data.type = some form →
        (form.typeID = eng.kFormType_Ammo → ∀ c, GetCount w iref = some c →
          DeferredEquipAction.Execute eng data w iref =
            some (true,
              eng.EquipItem w actor data.type (c % 65536).toNat (extendList w data), iref)) ∧
        (form.typeID ≠ eng.kFormType_Ammo →
          DeferredEquipAction.Execute eng data w iref =
            some (true, eng.EquipItem w actor data.type 1 (extendList w data), iref)))) ∧
    ((GetContainer iref = none ∨
        ∃ c, GetContainer iref = some c ∧ (w.refs c).isActor = false) →
      DeferredEquipAction.Execute eng data w iref = some (false, w, iref)) := by
  refine ⟨?_, ?_⟩
  · intro actor hc hact
    refine ⟨?_, ?_⟩
    · intro hworn
      simp [DeferredEquipAction.Execute, hc, hact, hworn]
    · intro hworn form hform
      refine ⟨?_, ?_⟩
      · intro hammo c hcount
        simp [DeferredEquipAction.Execute, hc, hact, hworn, hform, hammo, hcount]
      · intro hother
        simp [DeferredEquipAction.Execute, hc, hact, hworn, hform, hother]
  · rintro (hnone | ⟨c, hc, hact⟩)
    · simp [DeferredEquipAction.Execute, hnone]
    · simp [DeferredEquipAction.Execute, hc, hact]

/-- Claim C14, at concrete inputs: on the sample actor an unworn ammunition
stack of 50 is equipped with count 50 and an unworn item of another form type
with count 1; on the sample world, whose container is not an actor, nothing is
requested. -/
theorem DeferredEquipAction_Execute_requests_sample :
    DeferredEquipAction.Execute sampleEngine sampleProxyAmmo.m_data sampleWorldActor
        sampleProxyAmmo =
      some (true,
        sampleEngine.EquipItem sampleWorldActor 1 (some sampleAmmo) 50
          (extendList sampleWorldActor sampleProxyAmmo.m_data), sampleProxyAmmo) ∧
    DeferredEquipAction.Execute sampleEngine sampleProxy.m_data sampleWorldActor sampleProxy =
      some (true,
        sampleEngine.EquipItem sampleWorldActor 1 (some sampleForm) 1
          (extendList sampleWorldActor sampleProxy.m_data), sampleProxy) ∧
    DeferredEquipAction.Execute sampleEngine sampleProxy.m_data sampleWorld sampleProxy =
      some (false, sampleWorld, sampleProxy) :=
  ⟨(((DeferredEquipAction_Execute_requests sampleEngine sampleProxyAmmo.m_data sampleWorldActor
        sampleProxyAmmo).1 1 rfl (by decide)).2 (by decide) sampleAmmo rfl).1 rfl 50 (by decide),
    (((DeferredEquipAction_Execute_requests sampleEngine sampleProxy.m_data sampleWorldActor
        sampleProxy).1 1 rfl (by decide)).2 (by decide) sampleForm rfl).2 (by decide),
    (DeferredEquipAction_Execute_requests sampleEngine sampleProxy.m_data sampleWorld
        sampleProxy).2 (Or.inr ⟨1, rfl, by decide⟩)⟩

/-! ## Stack splitting only appends: theorems -/

/-- Claim C16: `CreateForUnextendedEntry` only appends. For a total below 1 it
returns with the world (the entry's chain, every node, the allocator) and
`dataOut` exactly as they were. For a total of at least 1, on an entry with data
whose existing nodes were handed out earlier by the allocator, the existing
nodes keep their contents and their order as a prefix of the chain, `dataOut` is
kept as a prefix, and the nodes appended to the chain are exactly the nodes the
appended records name, one allocation per record. -/
theorem CreateForUnextendedEntry_only_appends (w : World) (entry : Nat) (totalCount : Int)
    (dataOut : List Data) :
    (totalCount < 1 → CreateForUnextendedEntry w entry totalCount dataOut = some (w, dataOut)) ∧
    (1 ≤ totalCount → ∀ d, (w.entries entry).data = some d →
      (∀ a ∈ d.extendData, a < w.heapTop) →
      ∃ (w2 : World) (recs : List Data) (newNodes : List Nat),
        CreateForUnextendedEntry w entry totalCount dataOut = some (w2, dataOut ++ recs) ∧
        (w2.entries entry).data = some ⟨d.extendData ++ newNodes, d.type⟩ ∧
        (∀ a ∈ d.extendData, w2.extendNodes a = w.extendNodes a) ∧
        recs.map (fun r => r.extendData) = newNodes.map some ∧
        newNodes.length = recs.length ∧
        w2.heapTop = w.heapTop + recs.length) := by
  refine ⟨?_, ?_⟩
  · intro h
    simp [CreateForUnextendedEntry, h]
  · intro hcount d hd hold
    obtain ⟨hlo, hhi⟩ := split_bounds totalCount hcount
    generalize ((totalCount - 1) / 32767).toNat = n at hlo hhi
    obtain ⟨w2, hrun, htop, hent, -, -, hframe, -, -⟩ :=
      CreateForUnextendedEntry_run w entry totalCount dataOut d n hlo hhi hd
    refine ⟨w2, (List.range (n + 1)).map
        (fun i => (⟨d.type, some entry, some (w.heapTop + i)⟩ : Data)),
      (List.range (n + 1)).map (fun i => w.heapTop + i), hrun, hent, ?_, ?_, ?_, ?_⟩
    · intro a ha
      exact hframe a (hold a ha)
    · simp [List.map_map, Function.comp_def]
    · simp
    · simp only [List.length_map, List.length_range]
      omega

/-- Claim C16, at concrete inputs: the sample entry with a total of 0 and with
a total of 70000. -/
theorem CreateForUnextendedEntry_only_appends_sample :
    CreateForUnextendedEntry sampleWorld 10 0 [] = some (sampleWorld, []) ∧
    ∃ (w2 : World) (recs : List Data) (newNodes : List Nat),
      CreateForUnextendedEntry sampleWorld 10 70000 [] = some (w2, [] ++ recs) ∧
      (w2.entries 10).data = some ⟨[20, 21] ++ newNodes, some sampleForm⟩ ∧
      (∀ a ∈ [20, 21], w2.extendNodes a = sampleWorld.extendNodes a) ∧
      recs.map (fun r => r.extendData) = newNodes.map some ∧
      newNodes.length = recs.length ∧
      w2.heapTop = sampleWorld.heapTop + recs.length :=
  ⟨(CreateForUnextendedEntry_only_appends sampleWorld 10 0 []).1 (by decide),
    (CreateForUnextendedEntry_only_appends sampleWorld 10 70000 []).2 (by decide)
      ⟨[20, 21], some sampleForm⟩ rfl (by decide)⟩

/-! ## The removed flag and a flush: theorems -/

theorem SetData_flag (w : World) (self : InventoryReference) (data : Data)
    (r : Bool × World × InventoryReference) (h : SetData w self data = some r) :
    r.2.2.m_bRemoved = false ∧ r.2.2.m_data = data ∧ r.2.2.m_tempRef = self.m_tempRef ∧
      ∃ t, self.m_tempRef = some t ∧ (r.2.1.refs t).baseForm = data.type ∧
        (r.2.1.refs t).baseExtraList = (extendList w data).getD ⟨[]⟩ := by
  cases ht : self.m_tempRef with
  | none => rw [SetData_none _ _ _ ht] at h; cases h
  | some t =>
    rw [SetData_some _ _ _ t ht] at h
    cases h
    refine ⟨rfl, rfl, ht.symm ▸ rfl, t, rfl, ?_, ?_⟩ <;> simp [World.setRef]

theorem RemoveExecute_clears (eng : Engine) (data : Data) (m_target : Option Nat) (w : World)
    (iref : InventoryReference) (r : Bool × World × InventoryReference)
    (h : DeferredRemoveAction.Execute eng data m_target w iref = some r) (hr : r.1 = true) :
    r.2.2.m_data = ⟨none, none, none⟩ ∧ r.2.2.m_bRemoved = false ∧
      ∃ t, r.2.2.m_tempRef = some t ∧ (r.2.1.refs t).baseForm = none ∧
        (r.2.1.refs t).baseExtraList = ⟨[]⟩ := by
  unfold DeferredRemoveAction.Execute at h
  cases hc : GetContainer iref with
  | none =>
    rw [hc] at h
    cases h
    cases hr
  | some c =>
    rw [hc] at h
    simp only [] at h
    cases hg : GetCount w iref with
    | none => rw [hg] at h; cases h
    | some count =>
      rw [hg] at h
      simp only [] at h
      cases hs : SetData (eng.RemoveItem w c data.type (extendList w data) count m_target)
          (SetRemoved iref) ⟨none, none, none⟩ with
      | none => rw [hs] at h; cases h
      | some r2 =>
        rw [hs] at h
        cases h
        obtain ⟨h1, h2, h3, t, h4, h5, h6⟩ := SetData_flag _ _ _ _ hs
        refine ⟨h2, h1, t, ?_, h5, ?_⟩
        · rw [h3]; exact h4
        · rw [h6]; rfl

theorem applyAction_flag (eng : Engine) (s : World × InventoryReference)
    (action : DeferredAction) (r : World × InventoryReference)
    (h : applyAction eng s action = some r) : r.2.m_bRemoved = false := by
  unfold applyAction at h
  cases hs : SetData s.1 s.2 action.Data with
  | none => rw [hs] at h; cases h
  | some loaded =>
    rw [hs] at h
    simp only [] at h
    have hflag := (SetData_flag _ _ _ _ hs).1
    cases hv : Validate loaded.2.1 loaded.2.2 with
    | none => rw [hv] at h; cases h
    | some v =>
      rw [hv] at h
      simp only [] at h
      by_cases hcond : v = true ∧ (GetContainer loaded.2.2).isSome = true
      · rw [if_pos hcond] at h
        cases he : action.Execute eng loaded.2.1 loaded.2.2 with
        | none => rw [he] at h; cases h
        | some e =>
          rw [he] at h
          cases h
          cases action with
          | DeferredEquipAction data =>
            simp only [DeferredAction.Execute, DeferredEquipAction.Execute] at he
            repeat' split at he
            all_goals first | (cases he; exact hflag) | cases he
          | DeferredRemoveAction data m_target =>
            simp only [DeferredAction.Execute] at he
            have hb : e.1 = true := by
              unfold DeferredRemoveAction.Execute at he
              cases hc : GetContainer loaded.2.2 with
              | none => simp [hc] at hcond
              | some c =>
                rw [hc] at he
                simp only [] at he
                repeat' split at he
                all_goals first | (cases he; rfl) | cases he
            exact (RemoveExecute_clears eng data m_target _ _ e he hb).2.1
      · rw [if_neg hcond] at h
        cases h
        exact hflag

theorem foldlM_applyAction_flag (eng : Engine) (q : List DeferredAction) :
    ∀ (s r : World × InventoryReference), q ≠ [] →
      q.foldlM (applyAction eng) s = some r → r.2.m_bRemoved = false := by
  induction q with
  | nil => intro s r hq; exact absurd rfl hq
  | cons a rest ih =>
    intro s r _ hr
    simp only [List.foldlM_cons] at hr
    cases h1 : applyAction eng s a with
    | none => rw [h1] at hr; cases hr
    | some s1 =>
      rw [h1] at hr
      cases rest with
      | nil =>
        simp only [List.foldlM_nil] at hr
        cases hr
        exact applyAction_flag eng s a _ h1
      | cons b rest2 =>
        exact ih s1 r (by simp) hr

/-- Claim C17: `SetData` always leaves the removed flag false, so the flag
does not survive a flush: whenever `DoDeferredActions` returns from a queue of
at least one action, the removed flag is false, whatever it was before; and
whenever `DeferredRemoveAction::Execute` returns true, the proxy's data is
(NULL, NULL, NULL), the placeholder's base form is NULL and its extra data
empty, and the removed flag is false. -/
theorem removed_flag_cleared_by_flush :
    (∀ (w : World) (self : InventoryReference) (data : Data)
        (r : Bool × World × InventoryReference),
      SetData w self data = some r → r.2.2.m_bRemoved = false) ∧
    (∀ (eng : Engine) (w : World) (self : InventoryReference) (r : World × InventoryReference),
      self.m_deferredActions ≠ [] → DoDeferredActions eng w self = some r →
        r.2.m_bRemoved = false) ∧
    (∀ (eng : Engine) (data : Data) (m_target : Option Nat) (w : World)
        (iref : InventoryReference) (r : Bool × World × InventoryReference),
      DeferredRemoveAction.Execute eng data m_target w iref = some r → r.1 = true →
        r.2.2.m_data = ⟨none, none, none⟩ ∧ r.2.2.m_bRemoved = false ∧
        ∃ t, r.2.2.m_tempRef = some t ∧ (r.2.1.refs t).baseForm = none ∧
          (r.2.1.refs t).baseExtraList = ⟨[]⟩) := by
  refine ⟨?_, ?_, ?_⟩
  · intro w self data r h
    exact (SetData_flag w self data r h).1
  · intro eng w self r hq hr
    unfold DoDeferredActions at hr
    rw [drainQueue_eq_foldlM eng self.m_deferredActions w self rfl] at hr
    exact foldlM_applyAction_flag eng self.m_deferredActions _ r hq hr
  · intro eng data m_target w iref r h hr
    exact RemoveExecute_clears eng data m_target w iref r h hr

/-- Claim C17, at a concrete input: the sample proxy, marked removed and with
one queued removal, on the world where its data is worn: the flush returns and
the removed flag is false afterwards; the removal's `Execute` on it returns
true. -/
theorem removed_flag_cleared_by_flush_sample :
    sampleProxyQueued.m_bRemoved = true ∧
    (DoDeferredActions sampleEngine sampleWorldWorn sampleProxyQueued).isSome = true ∧
    (∀ r, DoDeferredActions sampleEngine sampleWorldWorn sampleProxyQueued = some r →
      r.2.m_bRemoved = false) ∧
    (DeferredRemoveAction.Execute sampleEngine sampleProxy.m_data none sampleWorldWorn
      sampleProxyQueued).map (fun r => r.1) = some true :=
  ⟨rfl, by decide,
    fun r hr => removed_flag_cleared_by_flush.2.1 sampleEngine sampleWorldWorn
      sampleProxyQueued r (by decide) hr,
    by decide⟩

/-! ## Equip toggling on a stale proxy: theorems -/

/-- Claim C15, evaluated on the code: the stale sample proxy has validation
enabled and fails validation, yet `SetEquipped(true)` on it returns true and
pushes a `DeferredEquipAction`: `SetEquipped` never calls `Validate`. -/
theorem SetEquipped_stale_proxy_queues :
    sampleProxyStale.m_bDoValidation = true ∧
    Validate sampleWorld sampleProxyStale = some false ∧
    SetEquipped sampleWorld sampleProxyStale true =
      (true, { sampleProxyStale with m_deferredActions :=
        [DeferredAction.DeferredEquipAction sampleProxyStale.m_data] }) := by
  refine ⟨rfl, by decide, by decide⟩

theorem validateOuter_congr (w w2 : World) (m_data : Data) (l : List Nat)
    (h : w2.entries = w.entries) : validateOuter w2 m_data l = validateOuter w m_data l := by
  induction l with
  | nil => rfl
  | cons cur rest ih => simp only [validateOuter, h, ih]

theorem Validate_after_SetData (w : World) (self : InventoryReference) (data : Data)
    (r : Bool × World × InventoryReference) (h : SetData w self data = some r) :
    Validate r.2.1 r.2.2 = Validate w { self with m_data := data } := by
  cases ht : self.m_tempRef with
  | none => rw [SetData_none _ _ _ ht] at h; cases h
  | some t =>
    rw [SetData_some _ _ _ t ht] at h
    cases h
    unfold Validate
    simp only []
    cases self.m_bDoValidation with
    | false => rfl
    | true =>
      simp only [Bool.not_true, Bool.false_eq_true, if_false]
      cases self.m_containerRef with
      | none => rfl
      | some c =>
        simp only []
        have hx : ((w.setRef t { w.refs t with
            baseForm := data.type,
            baseExtraList := (extendList w data).getD ⟨[]⟩ }).refs c).xChanges
            = (w.refs c).xChanges := by
          simp only [World.setRef]
          by_cases hct : c = t
          · simp [hct]
          · simp [hct]
        rw [hx]
        cases (w.refs c).xChanges with
        | none => rfl
        | some x =>
          simp only []
          cases x.data with
          | none => rfl
          | some d => exact validateOuter_congr _ _ _ _ rfl

/-- Claim C15, amended: `SetEquipped` does not re-validate. On a proxy that
fails validation it still returns true and pushes one `DeferredEquipAction`
carrying the proxy's data exactly when the worn status read through the
snapshotted data differs from `b`, and returns false with the proxy unchanged
otherwise. The re-validation comes when the queue is drained: for a proxy with
a placeholder that fails validation, the step of the drain on that action loads
the snapshot into the placeholder and runs no `Execute`. -/
theorem SetEquipped_defers_validation (eng : Engine) (w : World) (self : InventoryReference)
    (b : Bool) (t : Nat)
    (hv : Validate w self = some false) (ht : self.m_tempRef = some t) :
    ((SetEquipped w self b).1 = true ↔ dataIsWorn w self.m_data ≠ b) ∧
    (dataIsWorn w self.m_data ≠ b →
      (SetEquipped w self b).2 =
        { self with m_deferredActions :=
            self.m_deferredActions ++ [DeferredAction.DeferredEquipAction self.m_data] }) ∧
    (dataIsWorn w self.m_data = b → SetEquipped w self b = (false, self)) ∧
    applyAction eng (w, (SetEquipped w self b).2) (DeferredAction.DeferredEquipAction self.m_data) =
      some (w.setRef t { w.refs t with
          baseForm := self.m_data.type,
          baseExtraList := (extendList w self.m_data).getD ⟨[]⟩ },
        { (SetEquipped w self b).2 with m_bRemoved := false, m_data := self.m_data }) := by
  refine ⟨?_, ?_, ?_, ?_⟩
  · rw [dataIsWorn_eq]
    unfold SetEquipped
    cases extendList w self.m_data with
    | none => cases b <;> simp [QueueAction]
    | some l => cases hw : BaseExtraList.IsWorn l <;> cases b <;> simp [QueueAction, hw]
  · rw [dataIsWorn_eq]
    unfold SetEquipped
    cases extendList w self.m_data with
    | none => cases b <;> simp [QueueAction]
    | some l => cases hw : BaseExtraList.IsWorn l <;> cases b <;> simp [QueueAction, hw]
  · rw [dataIsWorn_eq]
    unfold SetEquipped
    cases extendList w self.m_data with
    | none => cases b <;> simp [QueueAction]
    | some l => cases hw : BaseExtraList.IsWorn l <;> cases b <;> simp [QueueAction, hw]
  · have hq : ∃ q, (SetEquipped w self b).2 = setQueue q self := by
      unfold SetEquipped
      cases extendList w self.m_data with
      | none =>
        cases b
        · exact ⟨self.m_deferredActions, rfl⟩
        · exact ⟨_, rfl⟩
      | some l =>
        simp only []
        split
        · exact ⟨_, rfl⟩
        · exact ⟨self.m_deferredActions, rfl⟩
    obtain ⟨q, hq⟩ := hq
    rw [hq]
    unfold applyAction
    simp only [DeferredAction.Data]
    have hs := SetData_some w (setQueue q self) self.m_data t ht
    have hval := Validate_after_SetData w (setQueue q self) self.m_data _ hs
    have hsame : Validate w { setQueue q self with m_data := self.m_data } = Validate w self :=
      rfl
    rw [hs]
    simp only [hval, hsame, hv]
    simp

/-- Claim C15 amended, at a concrete input: the stale sample proxy asked to
equip. -/
theorem SetEquipped_defers_validation_sample :
    ((SetEquipped sampleWorld sampleProxyStale true).1 = true ↔
      dataIsWorn sampleWorld sampleProxyStale.m_data ≠ true) ∧
    (dataIsWorn sampleWorld sampleProxyStale.m_data ≠ true →
      (SetEquipped sampleWorld sampleProxyStale true).2 =
        { sampleProxyStale with m_deferredActions :=
            sampleProxyStale.m_deferredActions ++
              [DeferredAction.DeferredEquipAction sampleProxyStale.m_data] }) ∧
    (dataIsWorn sampleWorld sampleProxyStale.m_data = true →
      SetEquipped sampleWorld sampleProxyStale true = (false, sampleProxyStale)) ∧
    applyAction sampleEngine (sampleWorld, (SetEquipped sampleWorld sampleProxyStale true).2)
        (DeferredAction.DeferredEquipAction sampleProxyStale.m_data) =
      some (sampleWorld.setRef 2 { sampleWorld.refs 2 with
          baseForm := sampleProxyStale.m_data.type,
          baseExtraList := (extendList sampleWorld sampleProxyStale.m_data).getD ⟨[]⟩ },
        { (SetEquipped sampleWorld sampleProxyStale true).2 with
          m_bRemoved := false, m_data := sampleProxyStale.m_data }) :=
  SetEquipped_defers_validation sampleEngine sampleWorld sampleProxyStale true 2
    (by decide) rfl

/-! ## Write-back: theorems -/

/-- The part of the write-back round trip that holds: when the data loaded by
`SetData` has a non-NULL extend-data pointer and the proxy then validates,
`WriteRefDataToContainer` returns true and the world, the node's list included,
is exactly as `SetData` left it; no list is created for a node without one. -/
theorem WriteRefDataToContainer_round_trip (w : World) (self : InventoryReference) (d : Data)
    (ed : Nat) (r : Bool × World × InventoryReference)
    (hed : d.extendData = some ed) (hs : SetData w self d = some r)
    (hv : Validate r.2.1 r.2.2 = some true) :
    WriteRefDataToContainer r.2.1 r.2.2 = some (true, r.2.1, r.2.2) ∧
      r.2.1.extendNodes = w.extendNodes := by
  obtain ⟨c, tref, dat, bv, br, dq⟩ := self
  cases tref with
  | none => rw [SetData_none _ _ _ rfl] at hs; cases hs
  | some t =>
    rw [SetData_some _ _ _ t rfl] at hs
    cases hs
    refine ⟨?_, rfl⟩
    simp only [] at hv
    unfold WriteRefDataToContainer
    simp only [hv, Bool.false_eq_true, if_false, hed]
    have hl : extendList w d = (w.extendNodes ed).data := by simp [extendList, hed]
    cases hn : (w.extendNodes ed).data with
    | none =>
      simp [World.setRef, hl, hn]
    | some L =>
      have hnode : w.extendNodes ed = ⟨some L⟩ := by
        cases hw : w.extendNodes ed with
        | mk data => rw [hw] at hn; simp at hn; rw [hn]
      simp only [World.setRef, World.setExtend, hl, hn, WriteToExtraDataList,
        Option.isNone_some, Bool.false_and, Bool.false_eq_true, if_false, Option.getD_some,
        if_true, ite_true, Option.some.injEq, Prod.mk.injEq, true_and, and_true,
        reduceCtorEq, false_and, ite_false]
      simp only [World.mk.injEq, true_and, and_true]
      funext p
      by_cases hp : p = ed
      · simp [hp, hnode]
      · simp [hp]

/-- After a write-back that returns true on a proxy that is not removed and has
a placeholder and a non-NULL extend-data pointer, the list of the node, when it
has one, is the placeholder's list as it was at the call. -/
theorem WriteRefDataToContainer_writes_placeholder (w : World) (self : InventoryReference)
    (t ed : Nat) (r : Bool × World × InventoryReference) (L : ExtraDataList)
    (ht : self.m_tempRef = some t) (hed : self.m_data.extendData = some ed)
    (hrem : self.m_bRemoved = false)
    (h : WriteRefDataToContainer w self = some r) (hr : r.1 = true)
    (hL : (r.2.1.extendNodes ed).data = some L) :
    L = (w.refs t).baseExtraList := by
  unfold WriteRefDataToContainer at h
  rw [ht] at h
  simp only [] at h
  cases hv : Validate w self with
  | none => rw [hv] at h; cases h
  | some v =>
    rw [hv] at h
    cases v with
    | false =>
      simp only [Option.some.injEq] at h
      subst h
      cases hr
    | true =>
      simp only [hrem, Bool.false_eq_true, if_false, hed] at h
      by_cases hc : (w.extendNodes ed).data.isNone = true ∧ (w.refs t).baseExtraList.m_data ≠ []
      · simp only [hc, and_self, if_true, ne_eq, not_false_eq_true, World.setExtend,
          WriteToExtraDataList, ExtraDataList.Create, Option.isNone_some, Bool.false_and,
          Bool.false_eq_true, if_false, Option.some.injEq] at h
        subst h
        simp only [if_true, Option.some.injEq] at hL
        exact hL.symm
      · simp only [hc, if_false] at h
        cases hn : (w.extendNodes ed).data with
        | none =>
          rw [hn] at h
          simp only [Option.some.injEq] at h
          subst h
          rw [hn] at hL
          cases hL
        | some l =>
          rw [hn] at h
          simp only [World.setExtend, WriteToExtraDataList, Option.isNone_some, Bool.false_and,
            Bool.false_eq_true, if_false, Option.some.injEq] at h
          subst h
          simp only [if_true, Option.some.injEq] at hL
          exact hL.symm

/-- Claim C19, evaluated on the code: a proxy that validates and is not
removed, but whose extend-data pointer is NULL, makes `WriteRefDataToContainer`
dereference NULL right after `SetData`. Three such inputs: the proxy left by a
flushed deferred removal with validation disabled (the removed flag raised by
`Execute` has been cleared by the `SetData` that follows it), a released proxy
with validation disabled, and a proxy with validation enabled on an entry whose
chain is empty. -/
theorem WriteRefDataToContainer_null_extend_undefined :
    ((DoDeferredActions sampleEngine sampleWorldWorn sampleProxyUnchecked).map
        (fun r => (r.2.m_data, r.2.m_bRemoved, Validate r.1 r.2)) =
      some (⟨none, none, none⟩, false, some true) ∧
      ((DoDeferredActions sampleEngine sampleWorldWorn sampleProxyUnchecked).bind
        (fun r => (SetData r.1 r.2 r.2.m_data).map
          (fun r2 => (WriteRefDataToContainer r2.2.1 r2.2.2).isNone))) = some true) ∧
    ((SetData sampleWorld sampleProxyReleased ⟨none, none, none⟩).map
        (fun r => (r.2.2.m_bRemoved, Validate r.2.1 r.2.2,
          (WriteRefDataToContainer r.2.1 r.2.2).isNone)) =
      some (false, some true, true)) ∧
    ((SetData sampleWorldUnextended sampleProxyUnextended sampleProxyUnextended.m_data).map
        (fun r => (r.2.2.m_bRemoved, Validate r.2.1 r.2.2,
          (WriteRefDataToContainer r.2.1 r.2.2).isNone)) =
      some (false, some true, true)) := by
  refine ⟨⟨?_, ?_⟩, ?_, ?_⟩ <;> decide

/-! ## Destruction: theorems -/

theorem foldlM_applyAction_queue (eng : Engine) (q : List DeferredAction) :
    ∀ (s r : World × InventoryReference),
      q.foldlM (applyAction eng) s = some r → r.2.m_deferredActions = s.2.m_deferredActions := by
  induction q with
  | nil =>
    intro s r hr
    simp only [List.foldlM_nil] at hr
    cases hr
    rfl
  | cons a rest ih =>
    intro s r hr
    simp only [List.foldlM_cons] at hr
    cases h1 : applyAction eng s a with
    | none => rw [h1] at hr; cases hr
    | some s1 =>
      rw [h1] at hr
      rw [ih s1 r hr]
      exact applyAction_queue eng s.1 s.2 a s1 h1

theorem DoDeferredActions_queue_empty (eng : Engine) (w : World) (self : InventoryReference)
    (r : World × InventoryReference) (h : DoDeferredActions eng w self = some r) :
    r.2.m_deferredActions = [] := by
  unfold DoDeferredActions at h
  rw [drainQueue_eq_foldlM eng self.m_deferredActions w self rfl] at h
  exact foldlM_applyAction_queue eng _ _ r h

theorem Release_queue_empty (eng : Engine) (w : World) (self : InventoryReference)
    (r : World × InventoryReference) (h : Release eng w self = some r) :
    r.2.m_deferredActions = [] := by
  unfold Release at h
  cases hd : DoDeferredActions eng w self with
  | none => rw [hd] at h; cases h
  | some r1 =>
    rw [hd] at h
    simp only [] at h
    cases ht : r1.2.m_tempRef with
    | none => rw [SetData_none _ _ _ ht] at h; cases h
    | some t =>
      rw [SetData_some _ _ _ t ht] at h
      cases h
      exact DoDeferredActions_queue_empty eng w self r1 hd

/-- Claim C13 as stated fails: the destructor of a proxy whose data has been
cleared (type NULL) and that had an equip queued afterwards does not flush: when
the body of the destructor ends the action is still in the queue, unprocessed. -/
theorem destruct_cleared_proxy_keeps_queue :
    sampleProxyCleared.m_data.type = none ∧
    sampleProxyCleared.m_deferredActions =
      [DeferredAction.DeferredEquipAction ⟨none, none, none⟩] ∧
    (destruct sampleHost sampleEngine sampleWorld [] sampleProxyCleared).map
        (fun r => r.2.2.m_deferredActions) =
      some [DeferredAction.DeferredEquipAction ⟨none, none, none⟩] := by
  refine ⟨rfl, rfl, by decide⟩

/-- Claim C13, amended: the destructor of a proxy whose data has a form (type
non-NULL) first flushes: its result is that of `DoDeferredActions`, then
`SetData(Data(NULL, NULL, NULL))`, and only then, on the world these leave, the
release of the placeholder handle (erase from the registry, `Destroy`) and the
cleanup of the container; and whenever it returns, the queue is empty. The
destructor of a proxy whose data is cleared (type NULL) skips the flush: it only
releases the handle and cleans up, and its queue is left as it was. -/
theorem destruct_flushes_when_typed (host : ObjectHost) (eng : Engine) (w : World)
    (s_refmap : List (Nat × Nat)) (self : InventoryReference) :
    (self.m_data.type.isSome = true →
      destruct host eng w s_refmap self =
        (DoDeferredActions eng w self).bind (fun flushed =>
          (SetData flushed.1 flushed.2 ⟨none, none, none⟩).bind (fun cleared =>
            some (cleanupContainer host
                (releaseHandle host cleared.2.1 s_refmap cleared.2.2).1 cleared.2.2,
              (releaseHandle host cleared.2.1 s_refmap cleared.2.2).2, cleared.2.2))) ∧
      ∀ r, destruct host eng w s_refmap self = some r → r.2.2.m_deferredActions = []) ∧
    (self.m_data.type = none →
      destruct host eng w s_refmap self =
        some (cleanupContainer host (releaseHandle host w s_refmap self).1 self,
          (releaseHandle host w s_refmap self).2, self)) := by
  refine ⟨?_, ?_⟩
  · intro htype
    refine ⟨?_, ?_⟩
    · unfold destruct Release
      simp only [htype, if_true]
      cases DoDeferredActions eng w self with
      | none => rfl
      | some flushed =>
        simp only [Option.some_bind]
        cases SetData flushed.1 flushed.2 ⟨none, none, none⟩ <;> rfl
    · intro r hr
      unfold destruct at hr
      simp only [htype, if_true] at hr
      cases hrel : Release eng w self with
      | none => rw [hrel] at hr; cases hr
      | some r1 =>
        rw [hrel] at hr
        cases hr
        exact Release_queue_empty eng w self r1 hrel
  · intro htype
    simp [destruct, htype]

/-- Claim C13 amended, at concrete inputs: the destructor of the sample proxy
with a queued removal returns with an empty queue; that of the cleared sample
proxy leaves its queue alone. -/
theorem destruct_flushes_when_typed_sample :
    (destruct sampleHost sampleEngine sampleWorldWorn [] sampleProxyQueued).isSome = true ∧
    (∀ r, destruct sampleHost sampleEngine sampleWorldWorn [] sampleProxyQueued = some r →
      r.2.2.m_deferredActions = []) ∧
    destruct sampleHost sampleEngine sampleWorld [] sampleProxyCleared =
      some (cleanupContainer sampleHost
          (releaseHandle sampleHost sampleWorld [] sampleProxyCleared).1 sampleProxyCleared,
        (releaseHandle sampleHost sampleWorld [] sampleProxyCleared).2, sampleProxyCleared) :=
  ⟨by decide,
    ((destruct_flushes_when_typed sampleHost sampleEngine sampleWorldWorn []
      sampleProxyQueued).1 (by decide)).2,
    (destruct_flushes_when_typed sampleHost sampleEngine sampleWorld []
      sampleProxyCleared).2 rfl⟩

/-! ## The registry: theorems -/

theorem mapFind_mapInsert (k v k2 : Nat) (m : List (Nat × Nat)) :
    mapFind k2 (mapInsert k v m) = if k2 = k then some v else mapFind k2 m := by
  induction m with
  | nil => simp [mapFind, mapInsert]
  | cons e rest ih =>
    obtain ⟨k0, v0⟩ := e
    simp only [mapInsert]
    by_cases h1 : k < k0
    · simp only [h1, if_true, mapFind]
    · simp only [h1, if_false]
      by_cases h2 : k = k0
      · subst h2
        simp only [if_true, mapFind]
        by_cases h : k2 = k <;> simp [h]
      · simp only [h2, if_false, mapFind, ih]
        by_cases h : k2 = k0
        · have hne : ¬ k0 = k := fun hk => h2 hk.symm
          simp [h, hne]
        · simp [h]

theorem mapFind_mapErase (k k2 : Nat) (m : List (Nat × Nat)) :
    mapFind k2 (mapErase k m) = if k2 = k then none else mapFind k2 m := by
  induction m with
  | nil => simp [mapFind, mapErase]
  | cons e rest ih =>
    obtain ⟨k0, v0⟩ := e
    simp only [mapErase] at ih ⊢
    by_cases h0 : k0 = k
    · subst h0
      simp only [List.filter, decide_True, Bool.not_true, ih, mapFind]
      by_cases h : k2 = k0 <;> simp [h]
    · simp only [List.filter, h0, decide_False, Bool.not_false, mapFind, ih]
      by_cases h : k2 = k0
      · simp [h, h0]
      · simp [h]

theorem mem_mapInsert (k v : Nat) (m : List (Nat × Nat)) (e : Nat × Nat)
    (h : e ∈ mapInsert k v m) : e = (k, v) ∨ e ∈ m := by
  induction m with
  | nil => simp [mapInsert] at h; exact Or.inl h
  | cons e0 rest ih =>
    obtain ⟨k0, v0⟩ := e0
    simp only [mapInsert] at h
    by_cases h1 : k < k0
    · simp only [h1, if_true, List.mem_cons] at h
      rcases h with h | h | h
      · exact Or.inl h
      · exact Or.inr (by simp [h])
      · exact Or.inr (by simp [h])
    · simp only [h1, if_false] at h
      by_cases h2 : k = k0
      · simp only [h2, if_true, List.mem_cons] at h
        rcases h with h | h
        · exact Or.inl (by rw [h, h2])
        · exact Or.inr (by simp [h])
      · simp only [h2, if_false, List.mem_cons] at h
        rcases h with h | h
        · exact Or.inr (by simp [h])
        · rcases ih h with h3 | h3
          · exact Or.inl h3
          · exact Or.inr (by simp [h3])

theorem pairwise_mapInsert (k v : Nat) (m : List (Nat × Nat))
    (hm : m.Pairwise (fun a b => a.1 < b.1)) :
    (mapInsert k v m).Pairwise (fun a b => a.1 < b.1) := by
  induction m with
  | nil => simp [mapInsert]
  | cons e0 rest ih =>
    obtain ⟨k0, v0⟩ := e0
    rw [List.pairwise_cons] at hm
    obtain ⟨hhead, hrest⟩ := hm
    simp only [mapInsert]
    by_cases h1 : k < k0
    · simp only [h1, if_true]
      rw [List.pairwise_cons]
      refine ⟨?_, List.pairwise_cons.mpr ⟨hhead, hrest⟩⟩
      intro b hb
      rcases List.mem_cons.mp hb with hb | hb
      · rw [hb]; exact h1
      · exact lt_trans h1 (hhead b hb)
    · simp only [h1, if_false]
      by_cases h2 : k = k0
      · simp only [h2, if_true]
        exact List.pairwise_cons.mpr ⟨hhead, hrest⟩
      · simp only [h2, if_false]
        rw [List.pairwise_cons]
        refine ⟨?_, ih hrest⟩
        intro b hb
        rcases mem_mapInsert k v rest b hb with hb | hb
        · rw [hb]
          show k0 < k
          omega
        · exact hhead b hb

theorem pairwise_mapErase (k : Nat) (m : List (Nat × Nat))
    (hm : m.Pairwise (fun a b => a.1 < b.1)) :
    (mapErase k m).Pairwise (fun a b => a.1 < b.1) :=
  List.Pairwise.filter _ hm

theorem mapFind_of_mem (m : List (Nat × Nat)) (hm : m.Pairwise (fun a b => a.1 < b.1))
    (e : Nat × Nat) (he : e ∈ m) : mapFind e.1 m = some e.2 := by
  induction m with
  | nil => cases he
  | cons e0 rest ih =>
    rw [List.pairwise_cons] at hm
    obtain ⟨hhead, hrest⟩ := hm
    obtain ⟨k0, v0⟩ := e0
    rcases List.mem_cons.mp he with h | h
    · subst h
      simp [mapFind]
    · have hlt := hhead e h
      have hne : ¬ e.1 = k0 := fun heq => by simp [heq] at hlt
      simp only [mapFind, hne, if_false]
      exact ih hrest h

theorem mapErase_head (k v : Nat) (rest : List (Nat × Nat))
    (hm : ((k, v) :: rest).Pairwise (fun a b => a.1 < b.1)) :
    mapErase k ((k, v) :: rest) = rest := by
  rw [List.pairwise_cons] at hm
  simp only [mapErase, List.filter, decide_True, Bool.not_true]
  rw [List.filter_eq_self]
  intro e he
  have := hm.1 e he
  simp only [Bool.not_eq_true', decide_eq_false_iff_not]
  intro heq
  simp [heq] at this

theorem mapErase_idem (k : Nat) (m : List (Nat × Nat)) :
    mapErase k (mapErase k m) = mapErase k m := by
  simp [mapErase, List.filter_filter]

theorem SetData_keeps (w : World) (self : InventoryReference) (data : Data)
    (r : Bool × World × InventoryReference) (h : SetData w self data = some r) :
    r.2.2.m_tempRef = self.m_tempRef ∧ ∀ a, (r.2.1.refs a).refID = (w.refs a).refID := by
  cases ht : self.m_tempRef with
  | none => rw [SetData_none _ _ _ ht] at h; cases h
  | some t =>
    rw [SetData_some _ _ _ t ht] at h
    cases h
    refine ⟨ht, ?_⟩
    intro a
    simp only [World.setRef]
    by_cases ha : a = t
    · simp [ha]
    · simp [ha]

theorem Execute_keeps (host : ObjectHost) (eng : Engine) (hk : KeepsHandles host eng)
    (action : DeferredAction) (w : World) (iref : InventoryReference)
    (e : Bool × World × InventoryReference) (h : action.Execute eng w iref = some e) :
    e.2.2.m_tempRef = iref.m_tempRef ∧ ∀ a, (e.2.1.refs a).refID = (w.refs a).refID := by
  obtain ⟨hun, heq, hrem, -, -, -⟩ := hk
  cases action with
  | DeferredEquipAction data =>
    simp only [DeferredAction.Execute, DeferredEquipAction.Execute] at h
    repeat' split at h
    all_goals first
      | (cases h; exact ⟨rfl, fun a => hun _ _ _ _ _ a⟩)
      | (cases h; exact ⟨rfl, fun a => heq _ _ _ _ _ a⟩)
      | (cases h; exact ⟨rfl, fun _ => rfl⟩)
      | cases h
  | DeferredRemoveAction data m_target =>
    simp only [DeferredAction.Execute, DeferredRemoveAction.Execute] at h
    cases hc : GetContainer iref with
    | none =>
      rw [hc] at h
      cases h
      exact ⟨rfl, fun _ => rfl⟩
    | some c =>
      rw [hc] at h
      simp only [] at h
      cases hg : GetCount w iref with
      | none => rw [hg] at h; cases h
      | some count =>
        rw [hg] at h
        simp only [] at h
        cases hs : SetData (eng.RemoveItem w c data.type (extendList w data) count m_target)
            (SetRemoved iref) ⟨none, none, none⟩ with
        | none => rw [hs] at h; cases h
        | some r2 =>
          rw [hs] at h
          cases h
          obtain ⟨h1, h2⟩ := SetData_keeps _ _ _ _ hs
          refine ⟨h1, ?_⟩
          intro a
          rw [h2 a]
          exact hrem _ _ _ _ _ _ a

theorem applyAction_keeps (host : ObjectHost) (eng : Engine) (hk : KeepsHandles host eng)
    (s : World × InventoryReference) (action : DeferredAction) (r : World × InventoryReference)
    (h : applyAction eng s action = some r) :
    r.2.m_tempRef = s.2.m_tempRef ∧ ∀ a, (r.1.refs a).refID = (s.1.refs a).refID := by
  unfold applyAction at h
  cases hs : SetData s.1 s.2 action.Data with
  | none => rw [hs] at h; cases h
  | some loaded =>
    rw [hs] at h
    simp only [] at h
    obtain ⟨h1, h2⟩ := SetData_keeps _ _ _ _ hs
    cases hv : Validate loaded.2.1 loaded.2.2 with
    | none => rw [hv] at h; cases h
    | some v =>
      rw [hv] at h
      simp only [] at h
      by_cases hcond : v = true ∧ (GetContainer loaded.2.2).isSome = true
      · rw [if_pos hcond] at h
        cases he : action.Execute eng loaded.2.1 loaded.2.2 with
        | none => rw [he] at h; cases h
        | some e =>
          rw [he] at h
          cases h
          obtain ⟨h3, h4⟩ := Execute_keeps host eng hk action _ _ e he
          exact ⟨h3.trans h1, fun a => (h4 a).trans (h2 a)⟩
      · rw [if_neg hcond] at h
        cases h
        exact ⟨h1, h2⟩

theorem foldlM_applyAction_keeps (host : ObjectHost) (eng : Engine)
    (hk : KeepsHandles host eng) (q : List DeferredAction) :
    ∀ (s r : World × InventoryReference), q.foldlM (applyAction eng) s = some r →
      r.2.m_tempRef = s.2.m_tempRef ∧ ∀ a, (r.1.refs a).refID = (s.1.refs a).refID := by
  induction q with
  | nil =>
    intro s r hr
    simp only [List.foldlM_nil] at hr
    cases hr
    exact ⟨rfl, fun _ => rfl⟩
  | cons a rest ih =>
    intro s r hr
    simp only [List.foldlM_cons] at hr
    cases h1 : applyAction eng s a with
    | none => rw [h1] at hr; cases hr
    | some s1 =>
      rw [h1] at hr
      obtain ⟨h2, h3⟩ := applyAction_keeps host eng hk s a s1 h1
      obtain ⟨h4, h5⟩ := ih s1 r hr
      exact ⟨h4.trans h2, fun x => (h5 x).trans (h3 x)⟩

theorem Release_keeps (host : ObjectHost) (eng : Engine) (hk : KeepsHandles host eng)
    (w : World) (self : InventoryReference) (r : World × InventoryReference)
    (h : Release eng w self = some r) :
    r.2.m_tempRef = self.m_tempRef ∧ ∀ a, (r.1.refs a).refID = (w.refs a).refID := by
  unfold Release at h
  cases hd : DoDeferredActions eng w self with
  | none => rw [hd] at h; cases h
  | some r1 =>
    rw [hd] at h
    simp only [] at h
    unfold DoDeferredActions at hd
    rw [drainQueue_eq_foldlM eng self.m_deferredActions w self rfl] at hd
    obtain ⟨h1, h2⟩ := foldlM_applyAction_keeps host eng hk _ _ r1 hd
    cases hs : SetData r1.1 r1.2 ⟨none, none, none⟩ with
    | none => rw [hs] at h; cases h
    | some r2 =>
      rw [hs] at h
      cases h
      obtain ⟨h3, h4⟩ := SetData_keeps _ _ _ _ hs
      exact ⟨h3.trans h1, fun a => (h4 a).trans (h2 a)⟩

theorem destruct_result (host : ObjectHost) (eng : Engine) (hk : KeepsHandles host eng)
    (w : World) (m : List (Nat × Nat)) (self : InventoryReference)
    (r : World × List (Nat × Nat) × InventoryReference)
    (h : destruct host eng w m self = some r) :
    r.2.1 = (match self.m_tempRef with
      | some t => mapErase (w.refs t).refID m
      | none => m) ∧
    (∀ a, self.m_tempRef ≠ some a → (r.1.refs a).refID = (w.refs a).refID) ∧
    ∀ m2, destruct host eng w m2 self =
      some (r.1, (match self.m_tempRef with
        | some t => mapErase (w.refs t).refID m2
        | none => m2), r.2.2) := by
  have hk2 : KeepsHandles host eng := hk
  obtain ⟨-, -, -, hdes, hcl, -⟩ := hk
  unfold destruct at h
  have key : ∀ rel : World × InventoryReference,
      (if self.m_data.type.isSome = true then Release eng w self else some (w, self)) = some rel →
      rel.2.m_tempRef = self.m_tempRef ∧ ∀ a, (rel.1.refs a).refID = (w.refs a).refID := by
    intro rel hrel
    by_cases ht : self.m_data.type.isSome = true
    · rw [if_pos ht] at hrel
      exact Release_keeps host eng hk2 w self rel hrel
    · rw [if_neg ht] at hrel
      cases hrel
      exact ⟨rfl, fun _ => rfl⟩
  cases hrel : (if self.m_data.type.isSome = true then Release eng w self else some (w, self)) with
  | none => rw [hrel] at h; cases h
  | some rel =>
    rw [hrel] at h
    cases h
    obtain ⟨ht, hid⟩ := key rel hrel
    have hcleanup : ∀ (w0 : World) a,
        ((cleanupContainer host w0 rel.2).refs a).refID = (w0.refs a).refID := by
      intro w0 a
      unfold cleanupContainer
      cases rel.2.m_containerRef with
      | none => rfl
      | some c =>
        simp only []
        split
        · exact hcl _ _ _
        · rfl
    refine ⟨?_, ?_, ?_⟩
    · simp only [releaseHandle, ht]
      cases self.m_tempRef with
      | none => rfl
      | some t => simp only [hid t]
    · intro a ha
      simp only []
      rw [hcleanup]
      simp only [releaseHandle, ht]
      cases hts : self.m_tempRef with
      | none => exact hid a
      | some t =>
        simp only []
        have hat : a ≠ t := fun heq => ha (by rw [hts, heq])
        rw [hdes _ _ _ hat]
        exact hid a
    · intro m2
      unfold destruct
      rw [hrel]
      simp only [releaseHandle, ht]
      cases self.m_tempRef with
      | none => rfl
      | some t => simp only [hid t]

theorem destruct_none (host : ObjectHost) (eng : Engine) (w : World)
    (m m2 : List (Nat × Nat)) (self : InventoryReference)
    (h : destruct host eng w m self = none) : destruct host eng w m2 self = none := by
  unfold destruct at h ⊢
  cases hrel : (if self.m_data.type.isSome = true then Release eng w self else some (w, self)) with
  | none => rfl
  | some rel => rw [hrel] at h; cases h

theorem live_unique (s : Process) (hinv : RegistryInv s) (p p2 h : Nat)
    (h1 : LiveWithHandle s p h) (h2 : LiveWithHandle s p2 h) : p = p2 := by
  have a := (hinv.1 h p).mpr h1
  have b := (hinv.1 h p2).mpr h2
  rw [a] at b
  exact Option.some.inj b

theorem RegistryInv_deleteProxy (host : ObjectHost) (eng : Engine)
    (hk : KeepsHandles host eng) (s s2 : Process) (p : Nat) (hinv : RegistryInv s)
    (h : deleteProxy host eng s p = some s2) : RegistryInv s2 := by
  unfold deleteProxy at h
  cases hp : s.heap p with
  | none => rw [hp] at h; cases h
  | some self =>
    rw [hp] at h
    simp only [] at h
    cases hd : destruct host eng s.world s.s_refmap self with
    | none => rw [hd] at h; cases h
    | some r =>
      rw [hd] at h
      cases h
      obtain ⟨hmap, hid, -⟩ := destruct_result host eng hk _ _ _ r hd
      -- live proxies other than `p` keep their handle
      have hother : ∀ mm p2 h2, p2 ≠ p →
          (LiveWithHandle ⟨r.1, fun q => if q = p then none else s.heap q, mm⟩ p2 h2 ↔
            LiveWithHandle s p2 h2) := by
        intro mm p2 h2 hne
        have hkeep : ∀ self2 t2, s.heap p2 = some self2 → self2.m_tempRef = some t2 →
            (r.1.refs t2).refID = (s.world.refs t2).refID := by
          intro self2 t2 hs2 ht2
          apply hid
          intro hsame
          exact hne (live_unique s hinv p2 p _ ⟨self2, t2, hs2, ht2, rfl⟩
            ⟨self, t2, hp, hsame, rfl⟩)
        constructor
        · rintro ⟨self2, t2, hs2, ht2, hh⟩
          simp only [hne, if_false] at hs2
          exact ⟨self2, t2, hs2, ht2, by rw [← hkeep self2 t2 hs2 ht2]; exact hh⟩
        · rintro ⟨self2, t2, hs2, ht2, hh⟩
          refine ⟨self2, t2, by simp only [hne, if_false]; exact hs2, ht2, ?_⟩
          show (r.1.refs t2).refID = h2
          rw [hkeep self2 t2 hs2 ht2]; exact hh
      have hdead : ∀ mm h2,
          ¬ LiveWithHandle ⟨r.1, fun q => if q = p then none else s.heap q, mm⟩ p h2 := by
        rintro mm h2 ⟨self2, t2, hs2, -, -⟩
        simp at hs2
      refine ⟨?_, ?_⟩
      · intro h2 p2
        show mapFind h2 r.2.1 = some p2 ↔ _
        rw [hmap]
        by_cases hpp : p2 = p
        · subst hpp
          constructor
          · intro hf
            exfalso
            cases hts : self.m_tempRef with
            | none =>
              rw [hts] at hf
              simp only [] at hf
              obtain ⟨self2, t2, hs2, ht2, -⟩ := (hinv.1 h2 p2).mp hf
              rw [hp] at hs2
              cases hs2
              rw [hts] at ht2
              cases ht2
            | some t =>
              rw [hts] at hf
              simp only [mapFind_mapErase] at hf
              by_cases he : h2 = (s.world.refs t).refID
              · simp [he] at hf
              · simp only [he, if_false] at hf
                obtain ⟨self2, t2, hs2, ht2, hh⟩ := (hinv.1 h2 p2).mp hf
                rw [hp] at hs2
                cases hs2
                rw [hts] at ht2
                cases ht2
                exact he hh.symm
          · intro hl
            exact absurd hl (hdead _ h2)
        · rw [hother _ p2 h2 hpp, ← hinv.1 h2 p2]
          cases hts : self.m_tempRef with
          | none => rfl
          | some t =>
            simp only [mapFind_mapErase]
            by_cases he : h2 = (s.world.refs t).refID
            · simp only [he, if_true]
              constructor
              · intro hf; cases hf
              · intro hf
                exfalso
                have hl2 := (hinv.1 _ p2).mp hf
                exact hpp (live_unique s hinv p2 p _ hl2 ⟨self, t, hp, hts, rfl⟩)
            · simp only [he, if_false]
      · show r.2.1.Pairwise _
        rw [hmap]
        cases self.m_tempRef with
        | none => exact hinv.2
        | some t => exact pairwise_mapErase _ _ hinv.2

theorem deleteProxy_after_erase (host : ObjectHost) (eng : Engine)
    (hk : KeepsHandles host eng) (s : Process) (hinv : RegistryInv s) (h p : Nat)
    (hreg : mapFind h s.s_refmap = some p) :
    deleteProxy host eng { s with s_refmap := mapErase h s.s_refmap } p =
      deleteProxy host eng s p := by
  obtain ⟨self, t, hs, ht, hh⟩ := (hinv.1 h p).mp hreg
  unfold deleteProxy
  simp only [hs]
  cases hd : destruct host eng s.world s.s_refmap self with
  | none => rw [destruct_none host eng _ _ (mapErase h s.s_refmap) _ hd]
  | some r =>
    obtain ⟨hmap, -, hall⟩ := destruct_result host eng hk _ _ _ r hd
    rw [hall (mapErase h s.s_refmap)]
    simp only [ht, hh, mapErase_idem] at hmap ⊢
    rw [hmap]

theorem RegistryInv_construct (host : ObjectHost) (eng : Engine)
    (hk : KeepsHandles host eng) (s s2 : Process) (this : Nat) (container : Option Nat)
    (data : Data) (bValidate : Bool) (hinv : RegistryInv s) (hfree : s.heap this = none)
    (hfresh : ∀ p h, LiveWithHandle ⟨(host.Create s.world).2, s.heap, s.s_refmap⟩ p h →
      h ≠ ((host.Create s.world).2.refs (host.Create s.world).1).refID)
    (h : construct host s this container data bValidate = some s2) : RegistryInv s2 := by
  obtain ⟨-, -, -, -, -, hcreate⟩ := hk
  unfold construct at h
  simp only [] at h
  rw [SetData_some _ _ _ (host.Create s.world).1 rfl] at h
  simp only [Option.some.injEq] at h
  subst h
  generalize hc : host.Create s.world = c at hfresh hcreate
  have hcreate' : ∀ a, a ≠ c.1 → (c.2.refs a).refID = (s.world.refs a).refID := by
    intro a ha
    have := hcreate s.world a (by rw [hc]; exact ha)
    rw [hc] at this
    exact this
  -- the handle registered is the handle the host gave the new object
  have hnew : ((c.2.setRef c.1 { c.2.refs c.1 with
      baseForm := data.type,
      baseExtraList := (extendList c.2 data).getD ⟨[]⟩ }).refs c.1).refID
      = (c.2.refs c.1).refID := by
    simp [World.setRef]
  have hold : ∀ p2 self2 t2, s.heap p2 = some self2 → self2.m_tempRef = some t2 →
      t2 ≠ c.1 ∧ (s.world.refs t2).refID ≠ (c.2.refs c.1).refID := by
    intro p2 self2 t2 hs2 ht2
    have hne := hfresh p2 _ ⟨self2, t2, hs2, ht2, rfl⟩
    have ht : t2 ≠ c.1 := fun heq => hne (by simp [heq])
    refine ⟨ht, ?_⟩
    rw [← hcreate' t2 ht]
    exact hne
  have hrefs : ∀ t2, t2 ≠ c.1 →
      ((c.2.setRef c.1 { c.2.refs c.1 with
        baseForm := data.type,
        baseExtraList := (extendList c.2 data).getD ⟨[]⟩ }).refs t2).refID
        = (s.world.refs t2).refID := by
    intro t2 ht2
    simp only [World.setRef, ht2, if_false]
    exact hcreate' t2 ht2
  refine ⟨?_, ?_⟩
  · intro h2 p2
    simp only [hnew, mapFind_mapInsert]
    by_cases hpp : p2 = this
    · subst hpp
      constructor
      · intro hf
        by_cases he : h2 = (c.2.refs c.1).refID
        · exact ⟨⟨container, some c.1, data, bValidate, false, []⟩, c.1, by simp, rfl,
            by rw [hnew]; exact he.symm⟩
        · simp only [he, if_false] at hf
          obtain ⟨self2, t2, hs2, -, -⟩ := (hinv.1 h2 p2).mp hf
          rw [hfree] at hs2
          cases hs2
      · rintro ⟨self2, t2, hs2, ht2, hh⟩
        simp only [if_true, Option.some.injEq] at hs2
        subst hs2
        simp only [Option.some.injEq] at ht2
        subst ht2
        rw [hnew] at hh
        simp [hh]
    · constructor
      · intro hf
        by_cases he : h2 = (c.2.refs c.1).refID
        · simp only [he, if_true, Option.some.injEq] at hf
          exact absurd hf.symm hpp
        · simp only [he, if_false] at hf
          obtain ⟨self2, t2, hs2, ht2, hh⟩ := (hinv.1 h2 p2).mp hf
          refine ⟨self2, t2, by simp only [hpp, if_false]; exact hs2, ht2, ?_⟩
          show (_ : TESObjectREFR).refID = h2
          rw [hrefs t2 (hold p2 self2 t2 hs2 ht2).1]
          exact hh
      · rintro ⟨self2, t2, hs2, ht2, hh⟩
        simp only [hpp, if_false] at hs2
        obtain ⟨hne1, hne2⟩ := hold p2 self2 t2 hs2 ht2
        have hh2 : (s.world.refs t2).refID = h2 := by
          rw [← hrefs t2 hne1]; exact hh
        have he : ¬ h2 = (c.2.refs c.1).refID := fun heq => hne2 (hh2.trans heq)
        simp only [he, if_false]
        exact (hinv.1 h2 p2).mpr ⟨self2, t2, hs2, ht2, hh2⟩
  · exact pairwise_mapInsert _ _ _ hinv.2

theorem RegistryInv_cleanLoop (host : ObjectHost) (eng : Engine)
    (hk : KeepsHandles host eng) (n : Nat) :
    ∀ (s s2 : Process), RegistryInv s → cleanLoop host eng n s = some s2 → RegistryInv s2 := by
  induction n with
  | zero =>
    intro s s2 hinv h
    simp only [cleanLoop, Option.some.injEq] at h
    subst h
    exact hinv
  | succ n ih =>
    intro s s2 hinv h
    simp only [cleanLoop] at h
    cases hm : s.s_refmap with
    | nil =>
      rw [hm] at h
      simp only [Option.some.injEq] at h
      subst h
      exact hinv
    | cons e rest =>
      obtain ⟨refid, refr⟩ := e
      rw [hm] at h
      simp only [] at h
      have hreg : mapFind refid s.s_refmap = some refr :=
        mapFind_of_mem _ hinv.2 (refid, refr) (by rw [hm]; exact List.mem_cons_self _ _)
      have hsame := deleteProxy_after_erase host eng hk s hinv refid refr hreg
      rw [hm] at hsame
      rw [hsame] at h
      cases hd : deleteProxy host eng s refr with
      | none => rw [hd] at h; cases h
      | some s1 =>
        rw [hd] at h
        exact ih s1 s2 (RegistryInv_deleteProxy host eng hk s s1 refr hinv hd) h

theorem Reachable_inv (host : ObjectHost) (eng : Engine) (hk : KeepsHandles host eng)
    (s : Process) (hr : Reachable host eng s) : RegistryInv s := by
  induction hr with
  | init w =>
    refine ⟨?_, List.Pairwise.nil⟩
    intro h p
    constructor
    · intro hf; simp [mapFind] at hf
    · rintro ⟨self, t, hs, -, -⟩; cases hs
  | construct s s2 this container data bValidate _ hfree hfresh hc ih =>
    exact RegistryInv_construct host eng hk s s2 this container data bValidate ih hfree hfresh hc
  | destroy s s2 this _ hd ih =>
    exact RegistryInv_deleteProxy host eng hk s s2 this ih hd
  | clean s s2 _ hc ih =>
    exact RegistryInv_cleanLoop host eng hk _ s s2 ih hc
  | other s s2 _ hmap hheap hids ih =>
    have hlive : ∀ p h, LiveWithHandle s2 p h ↔ LiveWithHandle s p h := by
      intro p h
      constructor
      · rintro ⟨self2, t, hs2, ht, hh⟩
        have := hheap p
        rw [hs2] at this
        cases hs : s.heap p with
        | none => rw [hs] at this; cases this
        | some self =>
          rw [hs] at this
          simp only [Option.map_some', Option.some.injEq] at this
          exact ⟨self, t, hs, by rw [← this]; exact ht, by rw [← hids t]; exact hh⟩
      · rintro ⟨self, t, hs, ht, hh⟩
        have := hheap p
        rw [hs] at this
        cases hs2 : s2.heap p with
        | none => rw [hs2] at this; cases this
        | some self2 =>
          rw [hs2] at this
          simp only [Option.map_some', Option.some.injEq] at this
          exact ⟨self2, t, hs2, by rw [this]; exact ht, by rw [hids t]; exact hh⟩
    refine ⟨?_, by rw [hmap]; exact ih.2⟩
    intro h p
    rw [hmap, hlive]
    exact ih.1 h p

theorem GetForRefID_some_iff (s : Process) (h p : Nat) :
    GetForRefID s h = some (some p) ↔
      mapFind h s.s_refmap = some p ∧
        ∃ self, s.heap p = some self ∧ Validate s.world self = some true := by
  unfold GetForRefID
  cases hf : mapFind h s.s_refmap with
  | none => simp
  | some found =>
    simp only []
    cases hs : s.heap found with
    | none =>
      simp only [reduceCtorEq, Option.some.injEq, false_iff, not_and, not_exists]
      intro hfp self hself
      rw [← hfp, hs] at hself
      cases hself
    | some self =>
      simp only []
      cases hv : Validate s.world self with
      | none =>
        simp only [reduceCtorEq, Option.some.injEq, false_iff, not_and, not_exists]
        intro hfp self2 hself
        rw [← hfp, hs] at hself
        cases hself
        rw [hv]
        simp
      | some v =>
        cases v with
        | false =>
          simp only [Option.some.injEq, reduceCtorEq, false_iff, not_and, not_exists]
          intro hfp self2 hself
          rw [← hfp, hs] at hself
          cases hself
          rw [hv]
          simp
        | true =>
          simp only [Option.some.injEq]
          constructor
          · intro hfp
            subst hfp
            exact ⟨rfl, self, hs, hv⟩
          · rintro ⟨hfp, -⟩
            exact hfp

theorem KeepsHandles_sample : KeepsHandles sampleHost sampleEngine := by
  refine ⟨?_, ?_, ?_, ?_, ?_, ?_⟩
  · intro w actor type count list a; rfl
  · intro w actor type count list a; rfl
  · intro w container type list count target a; rfl
  · intro w t a ha
    simp [sampleHost, World.setRef, ha]
  · intro w c a; rfl
  · intro w a ha
    have ha' : a ≠ w.heapTop := ha
    simp [sampleHost, World.setRef, ha']

theorem Reachable_sampleProcess : Reachable sampleHost sampleEngine sampleProcess :=
  Reachable.construct sampleProcessEmpty sampleProcess 50 (some 1) sampleProxy.m_data true
    (Reachable.init sampleWorld) rfl
    (by rintro p h ⟨self, t, hs, -, -⟩; cases hs) rfl

/-- Claim C12: with a host that keeps the handle of every object it does not
create or destroy and never hands out a placeholder whose handle a live proxy
still uses, in every state reached by constructions, destructions, `Clean`
calls and other handle-keeping activity the registry maps a handle `h` to a
proxy `p` exactly when `p` is alive with placeholder handle `h`;
`GetForRefID(h)` returns `p` exactly when the registry maps `h` to `p` and `p`
validates; it returns NULL for an unregistered handle, for a handle no live
proxy holds, for the handle of a proxy just deleted, and for a registered proxy
that fails validation. -/
theorem registry_tracks_live_proxies (host : ObjectHost) (eng : Engine)
    (hk : KeepsHandles host eng) (s : Process) (hr : Reachable host eng s) :
    (∀ h p, mapFind h s.s_refmap = some p ↔ LiveWithHandle s p h) ∧
    (∀ h p, GetForRefID s h = some (some p) ↔
      mapFind h s.s_refmap = some p ∧
        ∃ self, s.heap p = some self ∧ Validate s.world self = some true) ∧
    (∀ h, mapFind h s.s_refmap = none → GetForRefID s h = some none) ∧
    (∀ h, (∀ p, ¬ LiveWithHandle s p h) → GetForRefID s h = some none) ∧
    (∀ p h s2, LiveWithHandle s p h → deleteProxy host eng s p = some s2 →
      GetForRefID s2 h = some none) ∧
    (∀ h p self, mapFind h s.s_refmap = some p → s.heap p = some self →
      Validate s.world self = some false → GetForRefID s h = some none) := by
  have hinv := Reachable_inv host eng hk s hr
  have hunreg : ∀ (st : Process) h, mapFind h st.s_refmap = none →
      GetForRefID st h = some none := by
    intro st h hf
    simp [GetForRefID, hf]
  refine ⟨hinv.1, GetForRefID_some_iff s, hunreg s, ?_, ?_, ?_⟩
  · intro h hno
    apply hunreg
    cases hf : mapFind h s.s_refmap with
    | none => rfl
    | some p => exact absurd ((hinv.1 h p).mp hf) (hno p)
  · rintro p h s2 ⟨self, t, hs, ht, hh⟩ hd
    apply hunreg
    unfold deleteProxy at hd
    rw [hs] at hd
    simp only [] at hd
    cases hdes : destruct host eng s.world s.s_refmap self with
    | none => rw [hdes] at hd; cases hd
    | some r =>
      rw [hdes] at hd
      cases hd
      obtain ⟨hmap, -, -⟩ := destruct_result host eng hk _ _ _ r hdes
      show mapFind h r.2.1 = none
      rw [hmap, ht]
      simp only [mapFind_mapErase, hh, if_true]
  · intro h p self hf hs hv
    simp [GetForRefID, hf, hs, hv]

/-- Claim C12, at a concrete input: the state after the sample host has
constructed one proxy from an empty registry. -/
theorem registry_tracks_live_proxies_sample :
    (∀ h p, mapFind h sampleProcess.s_refmap = some p ↔ LiveWithHandle sampleProcess p h) ∧
    (∀ h p, GetForRefID sampleProcess h = some (some p) ↔
      mapFind h sampleProcess.s_refmap = some p ∧
        ∃ self, sampleProcess.heap p = some self ∧
          Validate sampleProcess.world self = some true) ∧
    (∀ h, mapFind h sampleProcess.s_refmap = none → GetForRefID sampleProcess h = some none) ∧
    (∀ h, (∀ p, ¬ LiveWithHandle sampleProcess p h) →
      GetForRefID sampleProcess h = some none) ∧
    (∀ p h s2, LiveWithHandle sampleProcess p h →
      deleteProxy sampleHost sampleEngine sampleProcess p = some s2 →
      GetForRefID s2 h = some none) ∧
    (∀ h p self, mapFind h sampleProcess.s_refmap = some p →
      sampleProcess.heap p = some self →
      Validate sampleProcess.world self = some false →
      GetForRefID sampleProcess h = some none) :=
  registry_tracks_live_proxies sampleHost sampleEngine KeepsHandles_sample sampleProcess
    Reachable_sampleProcess

/-! ## Clean: theorems -/

theorem deleteProxy_heap (host : ObjectHost) (eng : Engine) (s s2 : Process) (p : Nat)
    (h : deleteProxy host eng s p = some s2) :
    s2.heap = fun q => if q = p then none else s.heap q := by
  unfold deleteProxy at h
  cases hp : s.heap p with
  | none => rw [hp] at h; cases h
  | some self =>
    rw [hp] at h
    simp only [] at h
    cases hd : destruct host eng s.world s.s_refmap self with
    | none => rw [hd] at h; cases h
    | some r =>
      rw [hd] at h
      cases h
      rfl

theorem deleteProxy_map (host : ObjectHost) (eng : Engine) (hk : KeepsHandles host eng)
    (s s2 : Process) (hinv : RegistryInv s) (h p : Nat)
    (hreg : mapFind h s.s_refmap = some p) (hd : deleteProxy host eng s p = some s2) :
    s2.s_refmap = mapErase h s.s_refmap := by
  obtain ⟨self, t, hs, ht, hh⟩ := (hinv.1 h p).mp hreg
  unfold deleteProxy at hd
  rw [hs] at hd
  simp only [] at hd
  cases hdes : destruct host eng s.world s.s_refmap self with
  | none => rw [hdes] at hd; cases hd
  | some r =>
    rw [hdes] at hd
    cases hd
    obtain ⟨hmap, -, -⟩ := destruct_result host eng hk _ _ _ r hdes
    show r.2.1 = _
    rw [hmap, ht]
    simp only [hh]

theorem cleanLoop_eq_foldlM (host : ObjectHost) (eng : Engine) (hk : KeepsHandles host eng)
    (m : List (Nat × Nat)) :
    ∀ s : Process, RegistryInv s → s.s_refmap = m →
      cleanLoop host eng m.length s =
        m.foldlM (fun st e => deleteProxy host eng st e.2) s := by
  induction m with
  | nil =>
    intro s _ _
    simp [cleanLoop]
  | cons e rest ih =>
    intro s hinv hm
    obtain ⟨h, p⟩ := e
    have hreg : mapFind h s.s_refmap = some p :=
      mapFind_of_mem _ hinv.2 (h, p) (by rw [hm]; exact List.mem_cons_self _ _)
    have hsame := deleteProxy_after_erase host eng hk s hinv h p hreg
    simp only [List.length_cons, cleanLoop, hm, List.foldlM_cons]
    rw [hm] at hsame
    rw [hsame]
    cases hd : deleteProxy host eng s p with
    | none => rfl
    | some s1 =>
      simp only [Option.some_bind]
      have hmap := deleteProxy_map host eng hk s s1 hinv h p hreg hd
      have hsorted := hinv.2
      rw [hm] at hmap hsorted
      rw [mapErase_head h p rest hsorted] at hmap
      exact ih s1 (RegistryInv_deleteProxy host eng hk s s1 p hinv hd) hmap

theorem foldlM_deleteProxy_final (host : ObjectHost) (eng : Engine)
    (hk : KeepsHandles host eng) (m : List (Nat × Nat)) :
    ∀ s s2 : Process, RegistryInv s → s.s_refmap = m →
      m.foldlM (fun st e => deleteProxy host eng st e.2) s = some s2 →
      s2.s_refmap = [] ∧ (∀ e ∈ m, s2.heap e.2 = none) ∧
        ∀ q, s.heap q = none → s2.heap q = none := by
  induction m with
  | nil =>
    intro s s2 _ hm hf
    simp only [List.foldlM_nil] at hf
    cases hf
    exact ⟨hm, fun e he => (List.not_mem_nil e he).elim, fun q hq => hq⟩
  | cons e rest ih =>
    intro s s2 hinv hm hf
    obtain ⟨h, p⟩ := e
    have hreg : mapFind h s.s_refmap = some p :=
      mapFind_of_mem _ hinv.2 (h, p) (by rw [hm]; exact List.mem_cons_self _ _)
    simp only [List.foldlM_cons] at hf
    cases hd : deleteProxy host eng s p with
    | none => rw [hd] at hf; cases hf
    | some s1 =>
      rw [hd] at hf
      have hf : rest.foldlM (fun st e => deleteProxy host eng st e.2) s1 = some s2 := hf
      have hmap := deleteProxy_map host eng hk s s1 hinv h p hreg hd
      have hsorted := hinv.2
      rw [hm] at hmap hsorted
      rw [mapErase_head h p rest hsorted] at hmap
      have hheap := deleteProxy_heap host eng s s1 p hd
      obtain ⟨h1, h2, h3⟩ :=
        ih s1 s2 (RegistryInv_deleteProxy host eng hk s s1 p hinv hd) hmap hf
      refine ⟨h1, ?_, ?_⟩
      · intro e he
        rcases List.mem_cons.mp he with he | he
        · subst he
          apply h3
          rw [hheap]
          simp
        · exact h2 e he
      · intro q hq
        apply h3
        rw [hheap]
        by_cases hqp : q = p
        · simp [hqp]
        · simp [hqp, hq]

theorem registry_values_nodup (s : Process) (hinv : RegistryInv s) :
    (s.s_refmap.map Prod.snd).Nodup := by
  rw [List.Nodup, List.pairwise_map]
  refine List.Pairwise.imp_of_mem ?_ hinv.2
  intro a b ha hb hlt heq
  have la := (hinv.1 a.1 a.2).mp (mapFind_of_mem _ hinv.2 a ha)
  have lb := (hinv.1 b.1 b.2).mp (mapFind_of_mem _ hinv.2 b hb)
  obtain ⟨self1, t1, hs1, ht1, hh1⟩ := la
  obtain ⟨self2, t2, hs2, ht2, hh2⟩ := lb
  rw [heq, hs2] at hs1
  cases hs1
  rw [ht2] at ht1
  cases ht1
  rw [hh2] at hh1
  omega

/-- Claim C18: with a host that keeps the handle of every object it does not
create or destroy, on every well-formed registry `Clean` terminates within as
many iterations as the registry has entries: its result is that of deleting,
in key order, the proxy of each registered entry, once each (the registered
proxies are pairwise distinct, and the erase of the entry before the delete
makes the destructor's own erase a no-op); and whenever it returns, the
registry is empty and every proxy that was registered is gone. (A destructor
that dereferences NULL makes both sides undefined.) -/
theorem Clean_deletes_every_registered_proxy (host : ObjectHost) (eng : Engine)
    (hk : KeepsHandles host eng) (s : Process) (hinv : RegistryInv s) :
    Clean host eng s = s.s_refmap.foldlM (fun st e => deleteProxy host eng st e.2) s ∧
    (s.s_refmap.map Prod.snd).Nodup ∧
    (∀ h p, mapFind h s.s_refmap = some p →
      deleteProxy host eng { s with s_refmap := mapErase h s.s_refmap } p =
        deleteProxy host eng s p) ∧
    ∀ s2, Clean host eng s = some s2 →
      s2.s_refmap = [] ∧ ∀ e ∈ s.s_refmap, s2.heap e.2 = none := by
  have hfold := cleanLoop_eq_foldlM host eng hk s.s_refmap s hinv rfl
  refine ⟨hfold, registry_values_nodup s hinv, ?_, ?_⟩
  · intro h p hreg
    exact deleteProxy_after_erase host eng hk s hinv h p hreg
  · intro s2 hc
    unfold Clean at hc
    rw [hfold] at hc
    obtain ⟨h1, h2, -⟩ := foldlM_deleteProxy_final host eng hk s.s_refmap s s2 hinv rfl hc
    exact ⟨h1, h2⟩

/-- Claim C18, at a concrete input: `Clean` on the state with one registered
proxy returns, with an empty registry and the proxy gone. -/
theorem Clean_deletes_every_registered_proxy_sample :
    sampleProcess.s_refmap = [(22, 50)] ∧
    (Clean sampleHost sampleEngine sampleProcess).map
      (fun s2 => (s2.s_refmap, s2.heap 50)) = some ([], none) ∧
    (Clean sampleHost sampleEngine sampleProcess =
        sampleProcess.s_refmap.foldlM
          (fun st e => deleteProxy sampleHost sampleEngine st e.2) sampleProcess ∧
      (sampleProcess.s_refmap.map Prod.snd).Nodup ∧
      (∀ h p, mapFind h sampleProcess.s_refmap = some p →
        deleteProxy sampleHost sampleEngine
            { sampleProcess with s_refmap := mapErase h sampleProcess.s_refmap } p =
          deleteProxy sampleHost sampleEngine sampleProcess p) ∧
      ∀ s2, Clean sampleHost sampleEngine sampleProcess = some s2 →
        s2.s_refmap = [] ∧ ∀ e ∈ sampleProcess.s_refmap, s2.heap e.2 = none) :=
  ⟨by decide, by decide,
    Clean_deletes_every_registered_proxy sampleHost sampleEngine KeepsHandles_sample
      sampleProcess (Reachable_inv sampleHost sampleEngine KeepsHandles_sample sampleProcess
        Reachable_sampleProcess)⟩

end InventoryRef
